import Mathlib

/-!
Shallow embedding of the Chit-Chat cryptographic core
(src/lib/crypto: utils, constants, aes-gcm, ecdh, keys, and the session
facade in the crypto module index).

Modelling conventions:
- bytes are `Nat` values `< 256`; byte arrays are `List Nat`;
- the platform primitives (WebCrypto ECDH, HKDF, PBKDF2, AES-GCM,
  getRandomValues, Date.now, TextEncoder/TextDecoder, btoa/atob, JWK
  serialisation) are trusted building blocks per the specification; they are
  modelled ideally but executably: keys are identified by their derivation
  inputs, the AEAD cipher accepts exactly genuine encryptions, entropy and
  clock reads are explicit oracle parameters;
- everything the repository itself implements (hex, base64 transport
  encoding via btoa/atob, fingerprinting, constant-time comparison, nonce
  prepending and splitting, AAD construction, tie-breaking, backup
  plumbing) is translated directly from the source.
-/

set_option linter.unusedVariables false

namespace ChitChat

instance instDecEqExcept {ε α : Type} [DecidableEq ε] [DecidableEq α] :
    DecidableEq (Except ε α) := fun x y =>
  match x, y with
  | Except.ok a, Except.ok b =>
    if h : a = b then Decidable.isTrue (by rw [h])
    else Decidable.isFalse (fun he => by cases he; exact h rfl)
  | Except.error a, Except.error b =>
    if h : a = b then Decidable.isTrue (by rw [h])
    else Decidable.isFalse (fun he => by cases he; exact h rfl)
  | Except.ok _, Except.error _ => Decidable.isFalse (fun he => by cases he)
  | Except.error _, Except.ok _ => Decidable.isFalse (fun he => by cases he)

/-- All entries of a byte list are genuine bytes (< 256). -/
def BytesOK (l : List Nat) : Prop := ∀ x ∈ l, x < 256

instance : DecidablePred BytesOK := fun l => List.decidableBAll _ l

/-- Little-endian base-256 digits of `n`, with explicit fuel so that the kernel
can evaluate the function. -/
def leBytes : Nat → Nat → List Nat
  | 0, _ => []
  | f+1, n => if n = 0 then [] else (n % 256) :: leBytes f (n / 256)

/-- Recompose a little-endian base-256 digit list into a number. -/
def fromLE : List Nat → Nat
  | [] => 0
  | d :: ds => d + 256 * fromLE ds

/-- Right-pad a byte list with zero bytes up to length `n`. -/
def padTo (n : Nat) (l : List Nat) : List Nat := l ++ List.replicate (n - l.length) 0

/-! ### UTF-8 (platform TextEncoder / TextDecoder) -/

/-- UTF-8 encoding of one Unicode code point, as produced by TextEncoder. -/
def utf8EncodeCP (n : Nat) : List Nat :=
  if n < 128 then [n]
  else if n < 2048 then [192 + n / 64, 128 + n % 64]
  else if n < 65536 then [224 + n / 4096, 128 + n / 64 % 64, 128 + n % 64]
  else [240 + n / 262144, 128 + n / 4096 % 64, 128 + n / 64 % 64, 128 + n % 64]

/-- The UTF-8 bytes of a string (TextEncoder.encode). -/
def utf8Bytes (s : String) : List Nat := s.data.flatMap (fun c => utf8EncodeCP c.toNat)

/-- Decode one UTF-8 code point from the head of a byte list. -/
def utf8DecodeCP : List Nat → Option (Nat × List Nat)
  | [] => none
  | b0 :: rest =>
    if b0 < 128 then some (b0, rest)
    else if b0 < 192 then none
    else if b0 < 224 then
      match rest with
      | b1 :: r =>
        if 128 ≤ b1 && b1 < 192 then some ((b0 - 192) * 64 + (b1 - 128), r) else none
      | [] => none
    else if b0 < 240 then
      match rest with
      | b1 :: b2 :: r =>
        if (128 ≤ b1 && b1 < 192) && (128 ≤ b2 && b2 < 192) then
          some ((b0 - 224) * 4096 + ((b1 - 128) * 64 + (b2 - 128)), r)
        else none
      | _ => none
    else if b0 < 248 then
      match rest with
      | b1 :: b2 :: b3 :: r =>
        if (128 ≤ b1 && b1 < 192) && ((128 ≤ b2 && b2 < 192) && (128 ≤ b3 && b3 < 192)) then
          some ((b0 - 240) * 262144 + ((b1 - 128) * 4096 + ((b2 - 128) * 64 + (b3 - 128))), r)
        else none
      | _ => none
    else none

/-- Decode a byte list as UTF-8 code points; fuel-indexed for structural recursion. -/
def utf8DecodeList : Nat → List Nat → Option (List Nat)
  | _, [] => some []
  | 0, _ :: _ => none
  | f+1, b :: rest =>
    match utf8DecodeCP (b :: rest) with
    | some (n, r) =>
      match utf8DecodeList f r with
      | some ns => some (n :: ns)
      | none => none
    | none => none

/-- Decode UTF-8 bytes to a string (TextDecoder.decode on valid input). -/
def utf8DecodeString (bytes : List Nat) : String :=
  String.mk (((utf8DecodeList bytes.length bytes).getD []).map Char.ofNat)

/-! ### Base64 (platform btoa / atob, used by utils.arrayBufferToBase64 and
utils.base64ToArrayBuffer) -/

/-- The base64 alphabet as a code-point table. -/
def b64CharCode (i : Nat) : Nat :=
  if i < 26 then 65 + i
  else if i < 52 then 71 + i
  else if i < 62 then i - 4
  else if i = 62 then 43 else 47

def b64Char (i : Nat) : Char := Char.ofNat (b64CharCode i)

/-- Inverse alphabet lookup; `64` marks a character outside the alphabet. -/
def b64Code (c : Char) : Nat :=
  let n := c.toNat
  if 65 ≤ n && n ≤ 90 then n - 65
  else if 97 ≤ n && n ≤ 122 then n - 71
  else if 48 ≤ n && n ≤ 57 then n + 4
  else if n = 43 then 62
  else if n = 47 then 63
  else 64

/-- btoa: encode bytes in groups of three, padding the tail with `=`. -/
def b64EncodeGroups : List Nat → List Char
  | [] => []
  | [a] => [b64Char (a / 4), b64Char (a % 4 * 16), '=', '=']
  | [a, b] => [b64Char (a / 4), b64Char (a % 4 * 16 + b / 16), b64Char (b % 16 * 4), '=']
  | a :: b :: c :: rest =>
    b64Char (a / 4) :: b64Char (a % 4 * 16 + b / 16) :: b64Char (b % 16 * 4 + c / 64) ::
      b64Char (c % 64) :: b64EncodeGroups rest

/-- atob: decode four-character groups back to bytes; `none` models the
exception thrown on malformed input. -/
def b64DecodeGroups : List Char → Option (List Nat)
  | [] => some []
  | c0 :: c1 :: c2 :: c3 :: rest =>
    if c2 = '=' then
      if c3 = '=' && rest.isEmpty then
        if b64Code c0 < 64 && b64Code c1 < 64 then
          some [b64Code c0 * 4 + b64Code c1 / 16]
        else none
      else none
    else if c3 = '=' then
      if rest.isEmpty then
        if (b64Code c0 < 64 && b64Code c1 < 64) && b64Code c2 < 64 then
          some [b64Code c0 * 4 + b64Code c1 / 16, b64Code c1 % 16 * 16 + b64Code c2 / 4]
        else none
      else none
    else
      if (b64Code c0 < 64 && b64Code c1 < 64) && (b64Code c2 < 64 && b64Code c3 < 64) then
        match b64DecodeGroups rest with
        | some bs =>
          some ((b64Code c0 * 4 + b64Code c1 / 16) ::
            ((b64Code c1 % 16 * 16 + b64Code c2 / 4) ::
              ((b64Code c2 % 4 * 64 + b64Code c3) :: bs)))
        | none => none
      else none
  | _ => none

/-- Port of utils.arrayBufferToBase64: the bytes, viewed as a binary string,
passed through btoa. -/
def arrayBufferToBase64 (buffer : List Nat) : String := String.mk (b64EncodeGroups buffer)

/-- Port of utils.base64ToArrayBuffer: atob then charCodeAt; `none` models the
exception on invalid base64. -/
def base64ToArrayBuffer (base64 : String) : Option (List Nat) := b64DecodeGroups base64.data

/-! ### utils: hex, fingerprint, comparison, concatenation -/

/-- One hex digit, lowercase (as JS Number.toString(16)). -/
def hexDigitChar (d : Nat) : Char := if d < 10 then Char.ofNat (48 + d) else Char.ofNat (87 + d)

/-- One byte as two lowercase hex digits (toString(16).padStart(2, zero)). -/
def hexByteChars (b : Nat) : List Char := [hexDigitChar (b / 16), hexDigitChar (b % 16)]

/-- Port of utils.arrayBufferToHex. -/
def arrayBufferToHex (buffer : List Nat) : String := String.mk (buffer.flatMap hexByteChars)

/-- Port of utils.generateFingerprint: first 16 hex chars, uppercased, grouped
in four blocks of four separated by hyphens. -/
def generateFingerprint (publicKey : List Nat) : String :=
  let shortened := ((arrayBufferToHex publicKey).data.take 16).map Char.toUpper
  String.mk (shortened.take 4 ++ '-' ::
    ((shortened.drop 4).take 4 ++ '-' ::
      ((shortened.drop 8).take 4 ++ '-' :: (shortened.drop 12).take 4)))

/-- Port of utils.concatUint8Arrays, at the two-argument use site in aes-gcm. -/
def concatUint8Arrays (a b : List Nat) : List Nat := a ++ b

/-- Port of utils.secureCompare: length check, then XOR-accumulate over the
full length; equal exactly when the accumulator is zero. -/
def secureCompare (a b : List Nat) : Bool :=
  if a.length ≠ b.length then false
  else decide ((List.zipWith (fun x y => x ^^^ y) a b).foldl (fun r v => r ||| v) 0 = 0)

/-! ### Symbolic WebCrypto keys and the ideal AEAD cipher -/

/-- Hash algorithm parameter of the key-derivation calls. -/
inductive HashAlg
  | sha256
deriving DecidableEq

/-- Symbolic key material: in the ideal-KDF model a key is identified by its
derivation inputs. -/
inductive SymKey
  | hkdf (ikm : List Nat) (hash : HashAlg) (salt : List Nat) (info : List Nat)
  | pbkdf2 (password : List Nat) (hash : HashAlg) (salt : List Nat) (iterations : Nat)
deriving DecidableEq

/-- Output algorithm of deriveKey: both call sites request AES-GCM 256. -/
inductive KeySpec
  | aesGcm256
deriving DecidableEq

/-- Model of an opaque WebCrypto CryptoKey handle for symmetric keys. -/
structure CryptoKeyM where
  spec : KeySpec
  material : SymKey
deriving DecidableEq

def hashByte : HashAlg → Nat
  | .sha256 => 0

def specByte : KeySpec → Nat
  | .aesGcm256 => 0

/-- Self-delimiting field encoding: unary length in 1-bytes, a 0 terminator,
then the payload. -/
def delim (l : List Nat) : List Nat := List.replicate l.length 1 ++ 0 :: l

/-- Parse one delimited field, returning payload and remainder. -/
def parseDelim (l : List Nat) : Option (List Nat × List Nat) :=
  let n := (l.takeWhile (fun x => x == 1)).length
  match l.drop n with
  | 0 :: r => if n ≤ r.length then some (r.take n, r.drop n) else none
  | _ => none

/-- Injective byte serialisation of key material, used inside the ideal AEAD
ciphertext so that decryption under a different key fails. -/
def encodeSymKey : SymKey → List Nat
  | .hkdf ikm h salt info => 0 :: hashByte h :: (delim ikm ++ (delim salt ++ delim info))
  | .pbkdf2 pw h salt it => 1 :: hashByte h :: (delim pw ++ (delim salt ++ delim (leBytes 8 it)))

def encodeKeyBytes (k : CryptoKeyM) : List Nat := specByte k.spec :: encodeSymKey k.material

/-- A key whose serialised derivation inputs are genuine bytes. -/
def ValidKey (k : CryptoKeyM) : Prop := BytesOK (encodeKeyBytes k)

instance : DecidablePred ValidKey := fun k => List.decidableBAll _ (encodeKeyBytes k)

/-- The non-plaintext fields authenticated by the ideal AEAD ciphertext. -/
def encMid (key : CryptoKeyM) (iv aad : List Nat) (tagLength : Nat) : List Nat :=
  delim (encodeKeyBytes key) ++ (delim iv ++ (delim aad ++ [tagLength % 256]))

/-- Ideal AEAD core (platform AES-GCM as a perfect authenticated cipher): the
ciphertext self-authenticates key, nonce, associated data, tag length and
plaintext; the plaintext field appears twice so any single byte corruption is
detectable. -/
def encCore (key : CryptoKeyM) (iv aad : List Nat) (tagLength : Nat) (pt : List Nat) : List Nat :=
  delim pt ++ (encMid key iv aad tagLength ++ delim pt)

/-- crypto.subtle.encrypt with AES-GCM parameters. -/
def subtleEncrypt (key : CryptoKeyM) (iv aad : List Nat) (tagLength : Nat) (pt : List Nat) :
    List Nat :=
  encCore key iv aad tagLength pt

/-- crypto.subtle.decrypt with AES-GCM parameters: succeeds exactly on genuine
encryptions under the same key, nonce, associated data and tag length; `none`
models the OperationError thrown on tag-check failure. -/
def subtleDecrypt (key : CryptoKeyM) (iv aad : List Nat) (tagLength : Nat) (ct : List Nat) :
    Option (List Nat) :=
  match parseDelim ct with
  | some (pt, _) => if ct = encCore key iv aad tagLength pt then some pt else none
  | none => none

/-! ### constants.ts -/

def IV_LENGTH : Nat := 12
def SALT_LENGTH : Nat := 32
def PBKDF2_ITERATIONS : Nat := 310000
def KEY_SIZE : Nat := 32
def HKDF_INFO : List Nat := utf8Bytes "chit-chat-e2ee-v1"

/-! ### aes-gcm.ts -/

/-- Error kinds surfaced by the crypto core. -/
inductive CryptoError
  | authenticationFailure
  | keyImportError
  | deserializationError
deriving DecidableEq

structure EncryptedMessage where
  ciphertext : String
  timestamp : Nat
deriving DecidableEq

structure DecryptedMessage where
  plaintext : String
  timestamp : Nat
deriving DecidableEq

/-- The entropy oracle behind utils.generateRandomBytes: for each requested
length it yields that many bytes. -/
def RndOK (rnd : Nat → List Nat) : Prop := ∀ n, (rnd n).length = n ∧ BytesOK (rnd n)

/-- The optional additionalData parameter as the byte string the cipher
authenticates: AES-GCM treats an absent AAD as the empty byte string. -/
def aadOf (additionalData : Option (List Nat)) : List Nat := additionalData.getD []

/-- Port of aes-gcm.encryptMessage. `rnd` supplies generateRandomBytes and
`now` the Date.now() read that timestamps the message. -/
def encryptMessage (sessionKey : CryptoKeyM) (plaintext : String)
    (additionalData : Option (List Nat)) (rnd : Nat → List Nat) (now : Nat) : EncryptedMessage :=
  let iv := rnd IV_LENGTH
  let plaintextBytes := utf8Bytes plaintext
  let ciphertextBuffer := subtleEncrypt sessionKey iv (aadOf additionalData) 128 plaintextBytes
  let combined := concatUint8Arrays iv ciphertextBuffer
  { ciphertext := arrayBufferToBase64 combined, timestamp := now }

/-- Port of aes-gcm.decryptMessage: split the first IV_LENGTH bytes back off as
the nonce, decrypt the rest. -/
def decryptMessage (sessionKey : CryptoKeyM) (encryptedMessage : EncryptedMessage)
    (additionalData : Option (List Nat)) : Except CryptoError DecryptedMessage :=
  match base64ToArrayBuffer encryptedMessage.ciphertext with
  | none => .error .deserializationError
  | some combined =>
    let iv := combined.take IV_LENGTH
    let ciphertext := combined.drop IV_LENGTH
    match subtleDecrypt sessionKey iv (aadOf additionalData) 128 ciphertext with
    | some plaintextBuffer =>
      .ok { plaintext := utf8DecodeString plaintextBuffer,
            timestamp := encryptedMessage.timestamp }
    | none => .error .authenticationFailure

/-- Port of aes-gcm.createAAD: the template string senderId:recipientId:timestamp
passed through TextEncoder. -/
def createAAD (senderId recipientId : String) (timestamp : Nat) : List Nat :=
  utf8Bytes (senderId ++ ":" ++ (recipientId ++ ":" ++ Nat.repr timestamp))

/-! ### keys.ts -/

structure KeyPair where
  publicKey : Nat
  privateKey : Nat
  publicKeyRaw : List Nat
  fingerprint : String
deriving DecidableEq

structure ExportedKeyPair where
  publicKey : String
  privateKey : List Nat
  fingerprint : String
deriving DecidableEq

structure EncryptedKeyBackup where
  encryptedPrivateKey : String
  salt : String
  iv : String
  publicKey : String
  fingerprint : String
deriving DecidableEq

/-- Raw uncompressed export of an EC public-key handle. The opaque platform
point is represented by its scalar; the export is the 65-byte string
4 :: little-endian scalar digits padded to 64 bytes. -/
def pubRaw (a : Nat) : List Nat := 4 :: padTo 64 (leBytes 64 a)

/-- Platform JWK serialisation of a private scalar (exportKey to JWK, then
JSON.stringify, then TextEncoder), modelled as an injective 65-byte record. -/
def jwkBytes (d : Nat) : List Nat := 123 :: padTo 64 (leBytes 64 d)

/-- JSON.parse plus subtle.importKey for a serialised private JWK. -/
def importJwk (bytes : List Nat) : Except CryptoError Nat :=
  if bytes.headD 0 = 123 && bytes.length = 65 then .ok (fromLE (bytes.drop 1))
  else .error .deserializationError

/-- subtle.importKey('raw', ...) for public keys; rejects non-point encodings. -/
def importPublicKeyBytes (bytes : List Nat) : Except CryptoError Nat :=
  if bytes.headD 0 = 4 && bytes.length = 65 then .ok (fromLE (bytes.drop 1))
  else .error .keyImportError

/-- Port of keys.generateIdentityKeyPair; `scalar` stands for the freshly
generated private scalar. -/
def generateIdentityKeyPair (scalar : Nat) : KeyPair :=
  let publicKeyRaw := pubRaw scalar
  { publicKey := scalar, privateKey := scalar, publicKeyRaw := publicKeyRaw,
    fingerprint := generateFingerprint publicKeyRaw }

/-- Port of keys.exportKeyPair. -/
def exportKeyPair (keyPair : KeyPair) : ExportedKeyPair :=
  { publicKey := arrayBufferToBase64 (pubRaw keyPair.publicKey),
    privateKey := jwkBytes keyPair.privateKey,
    fingerprint := keyPair.fingerprint }

/-- Port of keys.importKeyPair: decodes both keys and copies the stored
fingerprint field into the returned pair. -/
def importKeyPair (exported : ExportedKeyPair) : Except CryptoError KeyPair := do
  let publicKeyRaw ← match base64ToArrayBuffer exported.publicKey with
    | some b => Except.ok b
    | none => Except.error CryptoError.deserializationError
  let publicKey ← importPublicKeyBytes publicKeyRaw
  let privateKey ← importJwk exported.privateKey
  Except.ok (KeyPair.mk publicKey privateKey publicKeyRaw exported.fingerprint)

/-- Port of keys.importPublicKey. -/
def importPublicKey (base64PublicKey : String) : Except CryptoError Nat :=
  match base64ToArrayBuffer base64PublicKey with
  | some bytes => importPublicKeyBytes bytes
  | none => .error .deserializationError

/-- Port of keys.derivePasswordKey: PBKDF2 over SHA-256 with the fixed
iteration constant, producing an AES-GCM-256 key. -/
def derivePasswordKey (password : String) (salt : List Nat) : CryptoKeyM :=
  { spec := .aesGcm256,
    material := .pbkdf2 (utf8Bytes password) .sha256 salt PBKDF2_ITERATIONS }

/-- Port of keys.createKeyBackup: fresh salt and nonce from the entropy
oracle, password key derivation, JWK export, authenticated encryption with no
associated data. -/
def createKeyBackup (keyPair : KeyPair) (password : String) (rnd : Nat → List Nat) :
    EncryptedKeyBackup :=
  let salt := rnd SALT_LENGTH
  let iv := rnd 12
  let passwordKey := derivePasswordKey password salt
  let privateKeyData := jwkBytes keyPair.privateKey
  let encryptedPrivateKey := subtleEncrypt passwordKey iv [] 128 privateKeyData
  { encryptedPrivateKey := arrayBufferToBase64 encryptedPrivateKey,
    salt := arrayBufferToBase64 salt,
    iv := arrayBufferToBase64 iv,
    publicKey := arrayBufferToBase64 (pubRaw keyPair.publicKey),
    fingerprint := keyPair.fingerprint }

/-- Port of keys.restoreKeyFromBackup. -/
def restoreKeyFromBackup (backup : EncryptedKeyBackup) (password : String) :
    Except CryptoError KeyPair := do
  let salt ← match base64ToArrayBuffer backup.salt with
    | some b => Except.ok b
    | none => Except.error CryptoError.deserializationError
  let iv ← match base64ToArrayBuffer backup.iv with
    | some b => Except.ok b
    | none => Except.error CryptoError.deserializationError
  let encryptedPrivateKey ← match base64ToArrayBuffer backup.encryptedPrivateKey with
    | some b => Except.ok b
    | none => Except.error CryptoError.deserializationError
  let passwordKey := derivePasswordKey password salt
  let decryptedData ← match subtleDecrypt passwordKey iv [] 128 encryptedPrivateKey with
    | some d => Except.ok d
    | none => Except.error CryptoError.authenticationFailure
  let privateKey ← importJwk decryptedData
  let publicKeyRaw ← match base64ToArrayBuffer backup.publicKey with
    | some b => Except.ok b
    | none => Except.error CryptoError.deserializationError
  let publicKey ← importPublicKeyBytes publicKeyRaw
  Except.ok (KeyPair.mk publicKey privateKey publicKeyRaw backup.fingerprint)

/-! ### ecdh.ts -/

/-- Port of ecdh.deriveSharedSecret: 256-bit ECDH output. The platform point
arithmetic is ideal: the secret for handles a and b is determined by the
commutative scalar product, serialised to 32 bytes. -/
def deriveSharedSecret (privateKey publicKey : Nat) : List Nat :=
  padTo KEY_SIZE (leBytes KEY_SIZE (privateKey * publicKey))

/-- Port of ecdh.deriveSessionKey: HKDF-SHA-256, zero-filled 32-byte salt when
unspecified, AES-GCM-256 output. -/
def deriveSessionKey (sharedSecret : List Nat) (salt : Option (List Nat)) (info : List Nat) :
    CryptoKeyM :=
  { spec := .aesGcm256,
    material := .hkdf sharedSecret .sha256 (salt.getD (List.replicate KEY_SIZE 0)) info }

/-- Port of ecdh.performKeyExchange. -/
def performKeyExchange (myKeyPair : KeyPair) (theirPublicKey : Nat) (salt : Option (List Nat)) :
    CryptoKeyM :=
  deriveSessionKey (deriveSharedSecret myKeyPair.privateKey theirPublicKey) salt HKDF_INFO

/-- JavaScript string comparison a < b: code-unit lexicographic order. -/
def jsLtChars : List Char → List Char → Bool
  | [], [] => false
  | [], _ :: _ => true
  | _ :: _, [] => false
  | a :: as, b :: bs =>
    if a.toNat < b.toNat then true
    else if b.toNat < a.toNat then false
    else jsLtChars as bs

def jsStringLt (a b : String) : Bool := jsLtChars a.data b.data

structure SessionKeys where
  sendKey : CryptoKeyM
  receiveKey : CryptoKeyM
deriving DecidableEq

/-- Port of ecdh.deriveBidirectionalKeys: one shared secret, two HKDF info
labels, fingerprint tie-break deciding which derived key is sendKey. -/
def deriveBidirectionalKeys (myKeyPair : KeyPair) (theirPublicKey : Nat)
    (myFingerprint theirFingerprint : String) : SessionKeys :=
  let sharedSecret := deriveSharedSecret myKeyPair.privateKey theirPublicKey
  let iAmLower := jsStringLt myFingerprint theirFingerprint
  let info1 := utf8Bytes "chit-chat-session-key-1"
  let info2 := utf8Bytes "chit-chat-session-key-2"
  let key1 := deriveSessionKey sharedSecret none info1
  let key2 := deriveSessionKey sharedSecret none info2
  { sendKey := if iAmLower then key1 else key2,
    receiveKey := if iAmLower then key2 else key1 }

/-! ### Session facade (crypto module index) -/

structure SecureSession where
  sessionId : String
  sendKey : CryptoKeyM
  receiveKey : CryptoKeyM
  theirFingerprint : String
  createdAt : Nat
deriving DecidableEq

structure SecureMessagePayload where
  sessionId : String
  senderId : String
  recipientId : String
  encrypted : EncryptedMessage
deriving DecidableEq

/-- Port of establishSecureSession; `now` supplies the Date.now() reads. -/
def establishSecureSession (myKeyPair : KeyPair) (theirPublicKeyBase64 : String)
    (theirFingerprint : String) (now : Nat) : Except CryptoError SecureSession := do
  let theirPublicKey ← importPublicKey theirPublicKeyBase64
  let keys := deriveBidirectionalKeys myKeyPair theirPublicKey myKeyPair.fingerprint
    theirFingerprint
  let sessionId := myKeyPair.fingerprint ++ "-" ++ (theirFingerprint ++ "-" ++ Nat.repr now)
  Except.ok (SecureSession.mk sessionId keys.sendKey keys.receiveKey theirFingerprint now)

/-- Port of encryptSessionMessage. The facade reads Date.now() once for the AAD
binding (`nowAAD`); encryptMessage then reads Date.now() again for the message
timestamp (`nowStamp`): two separate platform clock reads. -/
def encryptSessionMessage (session : SecureSession) (senderId recipientId message : String)
    (nowAAD : Nat) (rnd : Nat → List Nat) (nowStamp : Nat) : SecureMessagePayload :=
  let timestamp := nowAAD
  let aad := createAAD senderId recipientId timestamp
  let encrypted := encryptMessage session.sendKey message (some aad) rnd nowStamp
  { sessionId := session.sessionId, senderId := senderId, recipientId := recipientId,
    encrypted := encrypted }

/-- Port of decryptSessionMessage: recomputes the AAD from the payload's sender,
recipient and the transported message timestamp. -/
def decryptSessionMessage (session : SecureSession) (payload : SecureMessagePayload) :
    Except CryptoError DecryptedMessage :=
  let aad := createAAD payload.senderId payload.recipientId payload.encrypted.timestamp
  decryptMessage session.receiveKey payload.encrypted (some aad)

/-! ### Auxiliary definitions used only by theorem statements -/

/-- Flip bit `b` of the byte at index `j`. -/
def flipBit (l : List Nat) (j b : Nat) : List Nat := l.set j ((l.getD j 0) ^^^ 2 ^ b)

/-- Uppercase hexadecimal character class of the fingerprint pattern. -/
def isUpperHexChar (c : Char) : Bool :=
  (('0' ≤ c) && (c ≤ '9')) || (('A' ≤ c) && (c ≤ 'F'))

/-- A concrete deterministic entropy oracle used to instantiate witnesses. -/
def constRnd : Nat → List Nat := fun n => List.replicate n 7

/-- A concrete session key used to instantiate witnesses. -/
def sampleKey : CryptoKeyM := deriveSessionKey [9] none [1]

/-! ## Byte-list helper lemmas -/

theorem leBytes_lt (f : Nat) : ∀ (n : Nat), ∀ x ∈ leBytes f n, x < 256 := by
  induction f with
  | zero => intro n x hx; simp [leBytes] at hx
  | succ k ih =>
    intro n x hx
    by_cases h : n = 0
    · simp [leBytes, h] at hx
    · simp only [leBytes, if_neg h, List.mem_cons] at hx
      rcases hx with h1 | h1
      · omega
      · exact ih _ _ h1

theorem leBytes_length_le (f : Nat) : ∀ (n : Nat), (leBytes f n).length ≤ f := by
  induction f with
  | zero => intro n; simp [leBytes]
  | succ k ih =>
    intro n
    by_cases h : n = 0
    · simp [leBytes, h]
    · simp only [leBytes, if_neg h, List.length_cons]
      exact Nat.succ_le_succ (ih _)

theorem fromLE_append_zeros (l : List Nat) (k : Nat) :
    fromLE (l ++ List.replicate k 0) = fromLE l := by
  induction l with
  | nil =>
    simp only [List.nil_append]
    induction k with
    | zero => rfl
    | succ m ih => simp [List.replicate_succ, fromLE, ih]
  | cons d ds ih => simp [fromLE, ih]

theorem fromLE_leBytes (f : Nat) : ∀ (n : Nat), n < 256 ^ f → fromLE (leBytes f n) = n := by
  induction f with
  | zero => intro n h; simp at h; simp [h, leBytes, fromLE]
  | succ k ih =>
    intro n h
    by_cases h0 : n = 0
    · simp [h0, leBytes, fromLE]
    · have hdiv : n / 256 < 256 ^ k := by
        rw [Nat.pow_succ] at h
        omega
      simp only [leBytes, if_neg h0, fromLE, ih _ hdiv]
      omega

theorem fromLE_padTo_leBytes (m f n : Nat) (h : n < 256 ^ f) :
    fromLE (padTo m (leBytes f n)) = n := by
  unfold padTo
  rw [fromLE_append_zeros, fromLE_leBytes f n h]

theorem padTo_length {l : List Nat} {n : Nat} (h : l.length ≤ n) : (padTo n l).length = n := by
  simp [padTo]
  omega

theorem bytesOK_append {a b : List Nat} : BytesOK (a ++ b) ↔ BytesOK a ∧ BytesOK b := by
  simp [BytesOK, or_imp, forall_and]

theorem bytesOK_cons {x : Nat} {l : List Nat} : BytesOK (x :: l) ↔ x < 256 ∧ BytesOK l := by
  simp [BytesOK]

theorem bytesOK_replicate {n x : Nat} (h : x < 256) : BytesOK (List.replicate n x) := by
  intro y hy
  rw [List.eq_of_mem_replicate hy]
  exact h

theorem bytesOK_padTo {n : Nat} {l : List Nat} (h : BytesOK l) : BytesOK (padTo n l) := by
  unfold padTo
  rw [bytesOK_append]
  exact ⟨h, bytesOK_replicate (by omega)⟩

theorem bytesOK_pubRaw (a : Nat) : BytesOK (pubRaw a) := by
  unfold pubRaw
  rw [bytesOK_cons]
  exact ⟨by omega, bytesOK_padTo (leBytes_lt 64 a)⟩

theorem bytesOK_jwkBytes (a : Nat) : BytesOK (jwkBytes a) := by
  unfold jwkBytes
  rw [bytesOK_cons]
  exact ⟨by omega, bytesOK_padTo (leBytes_lt 64 a)⟩

/-! ## Delimited-field lemmas -/

theorem takeWhile_replicate_one (n : Nat) (t : List Nat) :
    (List.replicate n 1 ++ 0 :: t).takeWhile (fun x => x == 1) = List.replicate n 1 := by
  induction n with
  | zero => simp [List.takeWhile]
  | succ k ih => simp [List.replicate_succ, List.takeWhile_cons, ih]

theorem parseDelim_delim (x r : List Nat) : parseDelim (delim x ++ r) = some (x, r) := by
  have h1 : delim x ++ r = List.replicate x.length 1 ++ 0 :: (x ++ r) := by
    simp [delim]
  rw [h1]
  unfold parseDelim
  simp only [takeWhile_replicate_one, List.length_replicate]
  have h2 : (List.replicate x.length 1 ++ 0 :: (x ++ r)).drop x.length = 0 :: (x ++ r) := by
    have hd := List.drop_left (List.replicate x.length 1) (0 :: (x ++ r))
    simp only [List.length_replicate] at hd
    exact hd
  rw [h2]
  have h3 : x.length ≤ (x ++ r).length := by simp
  simp only [if_pos h3]
  rw [List.take_left, List.drop_left]

theorem delim_append_inj {x u y v : List Nat} (h : delim x ++ u = delim y ++ v) :
    x = y ∧ u = v := by
  have h1 := parseDelim_delim x u
  rw [h, parseDelim_delim] at h1
  injection h1 with h2
  exact ⟨(congrArg Prod.fst h2).symm, (congrArg Prod.snd h2).symm⟩

theorem delim_inj {x y : List Nat} (h : delim x = delim y) : x = y := by
  have h2 : delim x ++ [] = delim y ++ [] := by simp [h]
  exact (delim_append_inj h2).1

theorem delim_length (x : List Nat) : (delim x).length = 2 * x.length + 1 := by
  simp [delim]
  omega

theorem bytesOK_delim {x : List Nat} (h : BytesOK x) : BytesOK (delim x) := by
  unfold delim
  rw [bytesOK_append, bytesOK_cons]
  exact ⟨bytesOK_replicate (by omega), by omega, h⟩

theorem delim_getElem_pt (pt : List Nat) (i : Nat) (hi : i < pt.length) :
    (delim pt)[pt.length + 1 + i]? = pt[i]? := by
  unfold delim
  rw [List.getElem?_append_right (by simp; omega)]
  simp only [List.length_replicate]
  have h1 : pt.length + 1 + i - pt.length = i + 1 := by omega
  rw [h1]
  simp

/-! ## Ideal AEAD lemmas -/

theorem subtleDecrypt_enc (k : CryptoKeyM) (iv aad : List Nat) (tl : Nat) (pt : List Nat) :
    subtleDecrypt k iv aad tl (encCore k iv aad tl pt) = some pt := by
  unfold subtleDecrypt
  unfold encCore
  rw [parseDelim_delim]
  simp [encCore]

theorem subtleDecrypt_sound {k : CryptoKeyM} {iv aad : List Nat} {tl : Nat} {ct pt : List Nat}
    (h : subtleDecrypt k iv aad tl ct = some pt) : ct = encCore k iv aad tl pt := by
  unfold subtleDecrypt at h
  split at h
  case h_1 pt' rest heq =>
    split at h
    case isTrue hc =>
      injection h with h2
      rw [← h2]
      exact hc
    case isFalse hc => cases h
  case h_2 => cases h

theorem encCore_inj {k k' : CryptoKeyM} {iv iv' aad aad' : List Nat} {tl tl' : Nat}
    {pt pt' : List Nat} (h : encCore k iv aad tl pt = encCore k' iv' aad' tl' pt') :
    pt = pt' ∧ encodeKeyBytes k = encodeKeyBytes k' ∧ iv = iv' ∧ aad = aad' ∧
      tl % 256 = tl' % 256 := by
  unfold encCore encMid at h
  obtain ⟨h1, h2⟩ := delim_append_inj h
  simp only [List.append_assoc, List.singleton_append] at h2
  obtain ⟨hek, h3⟩ := delim_append_inj h2
  obtain ⟨hiv, h4⟩ := delim_append_inj h3
  obtain ⟨haad, h5⟩ := delim_append_inj h4
  injection h5 with h6 h7
  exact ⟨h1, hek, hiv, haad, h6⟩

theorem subtleDecrypt_mismatch {k' k : CryptoKeyM} {iv' aad' iv aad : List Nat} {tl' tl : Nat}
    {pt pt' : List Nat}
    (h : subtleDecrypt k' iv' aad' tl' (encCore k iv aad tl pt) = some pt') :
    pt' = pt ∧ encodeKeyBytes k' = encodeKeyBytes k ∧ iv' = iv ∧ aad' = aad ∧
      tl' % 256 = tl % 256 := by
  have hs := subtleDecrypt_sound h
  have hinj := encCore_inj hs
  exact ⟨hinj.1.symm, hinj.2.1.symm, hinj.2.2.1.symm, hinj.2.2.2.1.symm, hinj.2.2.2.2.symm⟩

theorem encCore_length (k : CryptoKeyM) (iv aad : List Nat) (tl : Nat) (pt : List Nat) :
    (encCore k iv aad tl pt).length = 2 * (2 * pt.length + 1) + (encMid k iv aad tl).length := by
  simp [encCore, delim_length]
  omega

theorem encCore_length_inj {k : CryptoKeyM} {iv aad : List Nat} {tl : Nat} {pt pt' : List Nat}
    (h : (encCore k iv aad tl pt).length = (encCore k iv aad tl pt').length) :
    pt.length = pt'.length := by
  rw [encCore_length, encCore_length] at h
  omega

theorem encCore_getElem_fst (k : CryptoKeyM) (iv aad : List Nat) (tl : Nat) (pt : List Nat)
    (i : Nat) (hi : i < pt.length) :
    (encCore k iv aad tl pt)[pt.length + 1 + i]? = pt[i]? := by
  unfold encCore
  rw [List.getElem?_append_left (by rw [delim_length]; omega)]
  exact delim_getElem_pt pt i hi

theorem encCore_getElem_snd (k : CryptoKeyM) (iv aad : List Nat) (tl : Nat) (pt : List Nat)
    (i : Nat) (hi : i < pt.length) :
    (encCore k iv aad tl pt)[(2 * pt.length + 1) + (encMid k iv aad tl).length +
      (pt.length + 1 + i)]? = pt[i]? := by
  unfold encCore
  rw [List.getElem?_append_right (by rw [delim_length]; omega)]
  rw [delim_length]
  have h1 : 2 * pt.length + 1 + (encMid k iv aad tl).length + (pt.length + 1 + i) -
      (2 * pt.length + 1) = (encMid k iv aad tl).length + (pt.length + 1 + i) := by omega
  rw [h1]
  rw [List.getElem?_append_right (by omega)]
  have h2 : (encMid k iv aad tl).length + (pt.length + 1 + i) -
      (encMid k iv aad tl).length = pt.length + 1 + i := by omega
  rw [h2]
  exact delim_getElem_pt pt i hi

theorem exists_getElem_ne {a b : List Nat} (hlen : a.length = b.length) (hne : a ≠ b) :
    ∃ i, i < a.length ∧ a[i]? ≠ b[i]? := by
  by_contra hc
  push_neg at hc
  apply hne
  apply List.ext_getElem hlen
  intro i h1 h2
  have := hc i h1
  rw [List.getElem?_eq_getElem h1, List.getElem?_eq_getElem h2] at this
  injection this

theorem subtleDecrypt_set {k : CryptoKeyM} {iv aad : List Nat} {tl : Nat} {pt : List Nat}
    {m v : Nat} (hm : m < (encCore k iv aad tl pt).length)
    (hv : (encCore k iv aad tl pt).set m v ≠ encCore k iv aad tl pt) :
    subtleDecrypt k iv aad tl ((encCore k iv aad tl pt).set m v) = none := by
  set core := encCore k iv aad tl pt with hcore
  cases hd : subtleDecrypt k iv aad tl (core.set m v) with
  | none => rfl
  | some pt' =>
    exfalso
    have hs := subtleDecrypt_sound hd
    have hlen : pt.length = pt'.length := by
      apply encCore_length_inj
      rw [← hs]
      simp [hcore]
    by_cases hpt : pt' = pt
    · rw [hpt] at hs
      exact hv (by rw [hs])
    · have hex : ∃ i, i < pt'.length ∧ pt'[i]? ≠ pt[i]? :=
        exists_getElem_ne hlen.symm (by exact hpt)
      obtain ⟨i, hi, hne⟩ := hex
      have hi2 : i < pt.length := by omega
      have q1fst := encCore_getElem_fst k iv aad tl pt i hi2
      have q1snd := encCore_getElem_fst k iv aad tl pt' i hi
      have q2fst := encCore_getElem_snd k iv aad tl pt i hi2
      have q2snd := encCore_getElem_snd k iv aad tl pt' i hi
      rw [← hs] at q1snd q2snd
      rw [← hcore] at q1fst q2fst
      rw [← hlen] at q1snd q2snd
      -- q1snd : (core.set m v)[pt.length + 1 + i]? = pt'[i]?
      -- q2snd : (core.set m v)[...]? = pt'[i]?
      have hq1 : m = pt.length + 1 + i := by
        by_contra hm1
        rw [List.getElem?_set_ne hm1] at q1snd
        rw [q1fst] at q1snd
        exact hne (q1snd.symm)
      have hq2 : m = 2 * pt.length + 1 + (encMid k iv aad tl).length + (pt.length + 1 + i) := by
        by_contra hm2
        rw [List.getElem?_set_ne hm2] at q2snd
        rw [q2fst] at q2snd
        exact hne (q2snd.symm)
      omega

/-! ## UTF-8 lemmas -/

theorem char_toNat_lt (c : Char) : c.toNat < 1114112 := by
  have := c.valid
  simp [Char.toNat]
  rcases this with h | h <;> omega

theorem utf8EncodeCP_lt {n : Nat} (h : n < 1114112) : ∀ x ∈ utf8EncodeCP n, x < 256 := by
  intro x hx
  by_cases h1 : n < 128
  · simp [utf8EncodeCP, h1] at hx
    omega
  · by_cases h2 : n < 2048
    · simp [utf8EncodeCP, h1, h2] at hx
      rcases hx with rfl | rfl <;> omega
    · by_cases h3 : n < 65536
      · simp [utf8EncodeCP, h1, h2, h3] at hx
        rcases hx with rfl | rfl | rfl <;> omega
      · simp [utf8EncodeCP, h1, h2, h3] at hx
        rcases hx with rfl | rfl | rfl | rfl <;> omega

theorem utf8EncodeCP_ne_nil (n : Nat) : utf8EncodeCP n ≠ [] := by
  unfold utf8EncodeCP
  by_cases h1 : n < 128
  · simp [h1]
  · by_cases h2 : n < 2048
    · simp [h1, h2]
    · by_cases h3 : n < 65536 <;> simp [h1, h2, h3]

theorem utf8DecodeCP_enc {n : Nat} (h : n < 1114112) (r : List Nat) :
    utf8DecodeCP (utf8EncodeCP n ++ r) = some (n, r) := by
  by_cases h1 : n < 128
  · simp [utf8EncodeCP, h1, utf8DecodeCP]
  · by_cases h2 : n < 2048
    · have e1 : ¬ (192 + n / 64 < 128) := by omega
      have e2 : ¬ (192 + n / 64 < 192) := by omega
      have e3 : 192 + n / 64 < 224 := by omega
      simp only [utf8EncodeCP, if_neg h1, if_pos h2, List.cons_append, List.nil_append,
        utf8DecodeCP, if_neg e1, if_neg e2, if_pos e3]
      have g1 : (128 ≤ 128 + n % 64 && 128 + n % 64 < 192) = true := by
        simp
        omega
      rw [g1]
      simp
      omega
    · by_cases h3 : n < 65536
      · have e1 : ¬ (224 + n / 4096 < 128) := by omega
        have e2 : ¬ (224 + n / 4096 < 192) := by omega
        have e3 : ¬ (224 + n / 4096 < 224) := by omega
        have e4 : 224 + n / 4096 < 240 := by omega
        simp only [utf8EncodeCP, if_neg h1, if_neg h2, if_pos h3, List.cons_append,
          List.nil_append, utf8DecodeCP, if_neg e1, if_neg e2, if_neg e3, if_pos e4]
        have g1 : ((128 ≤ 128 + n / 64 % 64 && 128 + n / 64 % 64 < 192) &&
            (128 ≤ 128 + n % 64 && 128 + n % 64 < 192)) = true := by
          simp
          omega
        rw [g1]
        simp
        omega
      · have e1 : ¬ (240 + n / 262144 < 128) := by omega
        have e2 : ¬ (240 + n / 262144 < 192) := by omega
        have e3 : ¬ (240 + n / 262144 < 224) := by omega
        have e4 : ¬ (240 + n / 262144 < 240) := by omega
        have e5 : 240 + n / 262144 < 248 := by omega
        simp only [utf8EncodeCP, if_neg h1, if_neg h2, if_neg h3, List.cons_append,
          List.nil_append, utf8DecodeCP, if_neg e1, if_neg e2, if_neg e3, if_neg e4, if_pos e5]
        have g1 : ((128 ≤ 128 + n / 4096 % 64 && 128 + n / 4096 % 64 < 192) &&
            ((128 ≤ 128 + n / 64 % 64 && 128 + n / 64 % 64 < 192) &&
              (128 ≤ 128 + n % 64 && 128 + n % 64 < 192))) = true := by
          simp
          omega
        rw [g1]
        simp
        omega

theorem utf8DecodeList_flat (ps : List Nat) (hv : ∀ p ∈ ps, p < 1114112) :
    ∀ fuel, (ps.flatMap utf8EncodeCP).length ≤ fuel →
      utf8DecodeList fuel (ps.flatMap utf8EncodeCP) = some ps := by
  induction ps with
  | nil =>
    intro fuel h
    cases fuel <;> simp [utf8DecodeList]
  | cons p ps ih =>
    intro fuel hf
    have hp : p < 1114112 := hv p (by simp)
    have hrest : ∀ q ∈ ps, q < 1114112 := fun q hq => hv q (by simp [hq])
    have hflat : (p :: ps).flatMap utf8EncodeCP =
        utf8EncodeCP p ++ ps.flatMap utf8EncodeCP := by
      simp
    cases henc : utf8EncodeCP p with
    | nil => exact absurd henc (utf8EncodeCP_ne_nil p)
    | cons b bs =>
      cases fuel with
      | zero =>
        exfalso
        rw [hflat, henc] at hf
        simp at hf
      | succ f =>
        rw [hflat, henc]
        have hdec : utf8DecodeCP (b :: (bs ++ ps.flatMap utf8EncodeCP)) =
            some (p, ps.flatMap utf8EncodeCP) := by
          have hde := utf8DecodeCP_enc hp (ps.flatMap utf8EncodeCP)
          rw [henc] at hde
          simp only [List.cons_append] at hde
          exact hde
        have hlen : (ps.flatMap utf8EncodeCP).length ≤ f := by
          rw [hflat, henc] at hf
          simp only [List.length_cons, List.length_append] at hf
          omega
        show utf8DecodeList (f + 1) (b :: (bs ++ ps.flatMap utf8EncodeCP)) = some (p :: ps)
        unfold utf8DecodeList
        rw [hdec]
        simp [ih hrest f hlen]

theorem utf8Bytes_eq_flat (s : String) :
    utf8Bytes s = (s.data.map Char.toNat).flatMap utf8EncodeCP := by
  unfold utf8Bytes
  induction s.data with
  | nil => simp
  | cons c cs ih => simp [ih]

theorem utf8DecodeString_encode (s : String) : utf8DecodeString (utf8Bytes s) = s := by
  unfold utf8DecodeString
  rw [utf8Bytes_eq_flat]
  have hv : ∀ p ∈ s.data.map Char.toNat, p < 1114112 := by
    intro p hp
    obtain ⟨c, hc, rfl⟩ := List.mem_map.mp hp
    exact char_toNat_lt c
  rw [utf8DecodeList_flat _ hv _ (Nat.le_refl _)]
  simp only [Option.getD_some, List.map_map]
  have h2 : ∀ c ∈ s.data, (Char.ofNat ∘ Char.toNat) c = id c := by
    intro c hc
    simp [Char.ofNat_toNat]
  rw [List.map_congr_left h2, List.map_id]

theorem utf8Bytes_inj {s t : String} (h : utf8Bytes s = utf8Bytes t) : s = t := by
  have h1 := utf8DecodeString_encode s
  rw [h, utf8DecodeString_encode t] at h1
  exact h1.symm

theorem bytesOK_utf8Bytes (s : String) : BytesOK (utf8Bytes s) := by
  intro x hx
  unfold utf8Bytes at hx
  obtain ⟨c, hc, hm⟩ := List.mem_flatMap.mp hx
  exact utf8EncodeCP_lt (char_toNat_lt c) x hm

/-! ## Base64 lemmas -/

theorem b64Code_b64Char : ∀ i, i < 64 → b64Code (b64Char i) = i := by decide

theorem b64Char_ne_pad {i : Nat} (h : i < 64) : b64Char i ≠ '=' := by
  intro he
  have h1 := b64Code_b64Char i h
  rw [he] at h1
  have h2 : b64Code '=' = 64 := by decide
  omega

theorem b64_roundtrip (l : List Nat) (h : BytesOK l) :
    b64DecodeGroups (b64EncodeGroups l) = some l := by
  induction l using b64EncodeGroups.induct with
  | case1 => rfl
  | case2 a =>
    have ha : a < 256 := h a (by simp)
    have c1 : a / 4 < 64 := by omega
    have c2 : a % 4 * 16 < 64 := by omega
    simp only [b64EncodeGroups, b64DecodeGroups]
    rw [b64Code_b64Char _ c1, b64Code_b64Char _ c2]
    simp [c1, c2]
    omega
  | case3 a b =>
    have ha : a < 256 := h a (by simp)
    have hb : b < 256 := h b (by simp)
    have c1 : a / 4 < 64 := by omega
    have c2 : a % 4 * 16 + b / 16 < 64 := by omega
    have c3 : b % 16 * 4 < 64 := by omega
    simp only [b64EncodeGroups, b64DecodeGroups]
    rw [if_neg (b64Char_ne_pad c3)]
    rw [b64Code_b64Char _ c1, b64Code_b64Char _ c2, b64Code_b64Char _ c3]
    simp [c1, c2, c3]
    omega
  | case4 a b c rest ih =>
    have ha : a < 256 := h a (by simp)
    have hb : b < 256 := h b (by simp)
    have hc : c < 256 := h c (by simp)
    have hrest : BytesOK rest := by
      intro x hx
      exact h x (by simp [hx])
    have c1 : a / 4 < 64 := by omega
    have c2 : a % 4 * 16 + b / 16 < 64 := by omega
    have c3 : b % 16 * 4 + c / 64 < 64 := by omega
    have c4 : c % 64 < 64 := by omega
    simp only [b64EncodeGroups, b64DecodeGroups]
    rw [if_neg (b64Char_ne_pad c3), if_neg (b64Char_ne_pad c4)]
    rw [b64Code_b64Char _ c1, b64Code_b64Char _ c2, b64Code_b64Char _ c3, b64Code_b64Char _ c4]
    simp [c1, c2, c3, c4, ih hrest]
    omega

theorem base64_roundtrip (l : List Nat) (h : BytesOK l) :
    base64ToArrayBuffer (arrayBufferToBase64 l) = some l := by
  unfold base64ToArrayBuffer arrayBufferToBase64
  exact b64_roundtrip l h

/-! ## Message-level AEAD lemmas -/

theorem bytesOK_set {l : List Nat} {j v : Nat} (h : BytesOK l) (hv : v < 256) :
    BytesOK (l.set j v) := by
  induction l generalizing j with
  | nil => simp [BytesOK]
  | cons x xs ih =>
    cases j with
    | zero =>
      rw [List.set_cons_zero, bytesOK_cons]
      exact ⟨hv, (bytesOK_cons.mp h).2⟩
    | succ m =>
      rw [List.set_cons_succ, bytesOK_cons]
      exact ⟨(bytesOK_cons.mp h).1, ih (bytesOK_cons.mp h).2⟩

theorem bytesOK_encCore {k : CryptoKeyM} {iv aad : List Nat} {tl : Nat} {pt : List Nat}
    (hk : ValidKey k) (hiv : BytesOK iv) (haad : BytesOK aad) (hpt : BytesOK pt) :
    BytesOK (encCore k iv aad tl pt) := by
  unfold encCore encMid
  refine bytesOK_append.mpr ⟨bytesOK_delim hpt, bytesOK_append.mpr ⟨?_, bytesOK_delim hpt⟩⟩
  refine bytesOK_append.mpr ⟨bytesOK_delim hk, bytesOK_append.mpr ⟨bytesOK_delim hiv,
    bytesOK_append.mpr ⟨bytesOK_delim haad, ?_⟩⟩⟩
  intro x hx
  simp at hx
  omega

theorem take_append_of_length {l1 l2 : List Nat} {n : Nat} (h : l1.length = n) :
    (l1 ++ l2).take n = l1 := by
  subst h
  exact List.take_left _ _

theorem drop_append_of_length {l1 l2 : List Nat} {n : Nat} (h : l1.length = n) :
    (l1 ++ l2).drop n = l2 := by
  subst h
  exact List.drop_left _ _

theorem decryptMessage_encryptMessage {k : CryptoKeyM} {m : String} {aad : Option (List Nat)}
    {rnd : Nat → List Nat} {t : Nat} (hr : RndOK rnd) (hk : ValidKey k)
    (haad : BytesOK (aadOf aad)) :
    decryptMessage k (encryptMessage k m aad rnd t) aad =
      Except.ok (DecryptedMessage.mk m t) := by
  obtain ⟨hivlen, hivok⟩ := hr IV_LENGTH
  have hcombined : BytesOK (rnd IV_LENGTH ++
      subtleEncrypt k (rnd IV_LENGTH) (aadOf aad) 128 (utf8Bytes m)) :=
    bytesOK_append.mpr ⟨hivok, bytesOK_encCore hk hivok haad (bytesOK_utf8Bytes m)⟩
  have h1 : base64ToArrayBuffer (encryptMessage k m aad rnd t).ciphertext =
      some (rnd IV_LENGTH ++ subtleEncrypt k (rnd IV_LENGTH) (aadOf aad) 128 (utf8Bytes m)) := by
    exact base64_roundtrip _ hcombined
  have htake : (rnd IV_LENGTH ++
      subtleEncrypt k (rnd IV_LENGTH) (aadOf aad) 128 (utf8Bytes m)).take IV_LENGTH =
        rnd IV_LENGTH := take_append_of_length hivlen
  have hdrop : (rnd IV_LENGTH ++
      subtleEncrypt k (rnd IV_LENGTH) (aadOf aad) 128 (utf8Bytes m)).drop IV_LENGTH =
        subtleEncrypt k (rnd IV_LENGTH) (aadOf aad) 128 (utf8Bytes m) :=
    drop_append_of_length hivlen
  simp only [decryptMessage, h1, htake, hdrop]
  have h2 : subtleDecrypt k (rnd IV_LENGTH) (aadOf aad) 128
      (subtleEncrypt k (rnd IV_LENGTH) (aadOf aad) 128 (utf8Bytes m)) = some (utf8Bytes m) :=
    subtleDecrypt_enc k (rnd IV_LENGTH) (aadOf aad) 128 (utf8Bytes m)
  simp only [h2]
  rw [utf8DecodeString_encode]
  rfl

theorem decryptMessage_wrong_aad {k : CryptoKeyM} {m : String} {aad aad' : Option (List Nat)}
    {rnd : Nat → List Nat} {t : Nat} (hr : RndOK rnd) (hk : ValidKey k)
    (haad : BytesOK (aadOf aad)) (hne : aadOf aad' ≠ aadOf aad) :
    decryptMessage k (encryptMessage k m aad rnd t) aad' =
      Except.error CryptoError.authenticationFailure := by
  obtain ⟨hivlen, hivok⟩ := hr IV_LENGTH
  have hcombined : BytesOK (rnd IV_LENGTH ++
      subtleEncrypt k (rnd IV_LENGTH) (aadOf aad) 128 (utf8Bytes m)) :=
    bytesOK_append.mpr ⟨hivok, bytesOK_encCore hk hivok haad (bytesOK_utf8Bytes m)⟩
  have h1 : base64ToArrayBuffer (encryptMessage k m aad rnd t).ciphertext =
      some (rnd IV_LENGTH ++ subtleEncrypt k (rnd IV_LENGTH) (aadOf aad) 128 (utf8Bytes m)) :=
    base64_roundtrip _ hcombined
  have htake : (rnd IV_LENGTH ++
      subtleEncrypt k (rnd IV_LENGTH) (aadOf aad) 128 (utf8Bytes m)).take IV_LENGTH =
        rnd IV_LENGTH := take_append_of_length hivlen
  have hdrop : (rnd IV_LENGTH ++
      subtleEncrypt k (rnd IV_LENGTH) (aadOf aad) 128 (utf8Bytes m)).drop IV_LENGTH =
        subtleEncrypt k (rnd IV_LENGTH) (aadOf aad) 128 (utf8Bytes m) :=
    drop_append_of_length hivlen
  simp only [decryptMessage, h1, htake, hdrop]
  have h2 : subtleDecrypt k (rnd IV_LENGTH) (aadOf aad') 128
      (subtleEncrypt k (rnd IV_LENGTH) (aadOf aad) 128 (utf8Bytes m)) = none := by
    cases hd : subtleDecrypt k (rnd IV_LENGTH) (aadOf aad') 128
        (subtleEncrypt k (rnd IV_LENGTH) (aadOf aad) 128 (utf8Bytes m)) with
    | none => rfl
    | some pt' =>
      exfalso
      have := subtleDecrypt_mismatch hd
      exact hne this.2.2.2.1
  simp only [h2]

theorem list_getD_lt {l : List Nat} {j : Nat} (h : j < l.length) : l.getD j 0 = l[j] := by
  simp [List.getD_eq_getElem?_getD, List.getElem?_eq_getElem h]

theorem decryptMessage_flip {k : CryptoKeyM} {m : String} {aad : Option (List Nat)}
    {rnd : Nat → List Nat} {t' : Nat} {j b : Nat} (hr : RndOK rnd) (hk : ValidKey k)
    (haad : BytesOK (aadOf aad))
    (hj : j < (rnd IV_LENGTH ++
      subtleEncrypt k (rnd IV_LENGTH) (aadOf aad) 128 (utf8Bytes m)).length)
    (hb : b < 8) :
    decryptMessage k
      (EncryptedMessage.mk (arrayBufferToBase64 (flipBit
        (rnd IV_LENGTH ++ subtleEncrypt k (rnd IV_LENGTH) (aadOf aad) 128 (utf8Bytes m)) j b))
        t') aad = Except.error CryptoError.authenticationFailure := by
  obtain ⟨hivlen, hivok⟩ := hr IV_LENGTH
  set iv := rnd IV_LENGTH with hivdef
  set core := subtleEncrypt k iv (aadOf aad) 128 (utf8Bytes m) with hcoredef
  have hcoreok : BytesOK core := bytesOK_encCore hk hivok haad (bytesOK_utf8Bytes m)
  have hcombined : BytesOK (iv ++ core) := bytesOK_append.mpr ⟨hivok, hcoreok⟩
  have hjlen : j < (iv ++ core).length := hj
  have hold : (iv ++ core).getD j 0 = (iv ++ core)[j] := list_getD_lt hjlen
  have holdlt : (iv ++ core)[j] < 256 := hcombined _ (List.getElem_mem _)
  have hvlt : (iv ++ core).getD j 0 ^^^ 2 ^ b < 256 := by
    rw [hold]
    have h2b : 2 ^ b < 2 ^ 8 := Nat.pow_lt_pow_right (by norm_num) hb
    exact Nat.xor_lt_two_pow holdlt h2b
  have hvne : (iv ++ core).getD j 0 ^^^ 2 ^ b ≠ (iv ++ core)[j] := by
    rw [hold]
    intro he
    have h0 : (iv ++ core)[j] ^^^ 2 ^ b = (iv ++ core)[j] ^^^ 0 := by simpa using he
    have h1 := Nat.xor_right_inj.mp h0
    have h2 : 0 < 2 ^ b := Nat.two_pow_pos b
    omega
  have hflipok : BytesOK (flipBit (iv ++ core) j b) := bytesOK_set hcombined hvlt
  have h1 : base64ToArrayBuffer (arrayBufferToBase64 (flipBit (iv ++ core) j b)) =
      some (flipBit (iv ++ core) j b) := base64_roundtrip _ hflipok
  simp only [decryptMessage, h1]
  by_cases hcase : j < IV_LENGTH
  · -- corruption inside the transported nonce
    have hjiv : j < iv.length := by omega
    have hsplit : flipBit (iv ++ core) j b = iv.set j ((iv ++ core).getD j 0 ^^^ 2 ^ b) ++ core := by
      unfold flipBit
      exact List.set_append_left _ _ hjiv
    have hsetlen : (iv.set j ((iv ++ core).getD j 0 ^^^ 2 ^ b)).length = IV_LENGTH := by
      simp [hivlen]
    have htake : (flipBit (iv ++ core) j b).take IV_LENGTH =
        iv.set j ((iv ++ core).getD j 0 ^^^ 2 ^ b) := by
      rw [hsplit]
      exact take_append_of_length hsetlen
    have hdrop : (flipBit (iv ++ core) j b).drop IV_LENGTH = core := by
      rw [hsplit]
      exact drop_append_of_length hsetlen
    rw [htake, hdrop]
    have h2 : subtleDecrypt k (iv.set j ((iv ++ core).getD j 0 ^^^ 2 ^ b)) (aadOf aad) 128
        core = none := by
      cases hd : subtleDecrypt k (iv.set j ((iv ++ core).getD j 0 ^^^ 2 ^ b)) (aadOf aad) 128
          core with
      | none => rfl
      | some pt' =>
        exfalso
        have hmm := subtleDecrypt_mismatch hd
        have hiveq := hmm.2.2.1
        have hne2 : iv.set j ((iv ++ core).getD j 0 ^^^ 2 ^ b) ≠ iv := by
          intro he
          have hg1 : (iv.set j ((iv ++ core).getD j 0 ^^^ 2 ^ b))[j]? =
              some ((iv ++ core).getD j 0 ^^^ 2 ^ b) := List.getElem?_set_self hjiv
          rw [he] at hg1
          rw [List.getElem?_eq_getElem hjiv] at hg1
          injection hg1 with hg2
          apply hvne
          rw [← hg2]
          rw [List.getElem_append_left hjiv]
        exact hne2 hiveq
    simp only [h2]
  · -- corruption inside ciphertext plus tag
    have hjc : IV_LENGTH ≤ j := by omega
    have hjiv : iv.length ≤ j := by omega
    have hm : j - iv.length < core.length := by
      have := hjlen
      simp only [List.length_append] at this
      omega
    have hsplit : flipBit (iv ++ core) j b =
        iv ++ core.set (j - iv.length) ((iv ++ core).getD j 0 ^^^ 2 ^ b) := by
      unfold flipBit
      exact List.set_append_right _ _ hjiv
    have hsetlen2 : (core.set (j - iv.length) ((iv ++ core).getD j 0 ^^^ 2 ^ b)).length =
        core.length := by simp
    have htake : (flipBit (iv ++ core) j b).take IV_LENGTH = iv := by
      rw [hsplit]
      exact take_append_of_length hivlen
    have hdrop : (flipBit (iv ++ core) j b).drop IV_LENGTH =
        core.set (j - iv.length) ((iv ++ core).getD j 0 ^^^ 2 ^ b) := by
      rw [hsplit]
      exact drop_append_of_length hivlen
    rw [htake, hdrop]
    have hcorej : (iv ++ core)[j] = core[j - iv.length] := by
      rw [List.getElem_append_right hjiv]
    have hne3 : core.set (j - iv.length) ((iv ++ core).getD j 0 ^^^ 2 ^ b) ≠ core := by
      intro he
      have hg1 : (core.set (j - iv.length) ((iv ++ core).getD j 0 ^^^ 2 ^ b))[j - iv.length]? =
          some ((iv ++ core).getD j 0 ^^^ 2 ^ b) := List.getElem?_set_self hm
      rw [he] at hg1
      rw [List.getElem?_eq_getElem hm] at hg1
      injection hg1 with hg2
      apply hvne
      rw [← hg2, hcorej]
    have h2 : subtleDecrypt k iv (aadOf aad) 128
        (core.set (j - iv.length) ((iv ++ core).getD j 0 ^^^ 2 ^ b)) = none :=
      @subtleDecrypt_set k iv (aadOf aad) 128 (utf8Bytes m) (j - iv.length)
        ((iv ++ core).getD j 0 ^^^ 2 ^ b) hm hne3
    simp only [h2]

/-! ## JavaScript string-order lemmas -/

theorem char_toNat_inj {a b : Char} (h : a.toNat = b.toNat) : a = b := by
  have h1 := Char.ofNat_toNat a
  rw [← h1, h, Char.ofNat_toNat]

theorem jsLtChars_asymm : ∀ {x y : List Char}, jsLtChars x y = true → jsLtChars y x = false := by
  intro x
  induction x with
  | nil =>
    intro y h
    cases y with
    | nil => simp [jsLtChars] at h
    | cons b bs => simp [jsLtChars]
  | cons a as ih =>
    intro y h
    cases y with
    | nil => simp [jsLtChars] at h
    | cons b bs =>
      by_cases h1 : a.toNat < b.toNat
      · have h2 : ¬ b.toNat < a.toNat := by omega
        simp [jsLtChars, h1, h2]
      · by_cases h2 : b.toNat < a.toNat
        · simp [jsLtChars, h1, h2] at h
        · have hr : jsLtChars as bs = true := by
            simpa [jsLtChars, h1, h2] using h
          simp [jsLtChars, h1, h2, ih hr]

theorem jsLtChars_conn : ∀ {x y : List Char},
    jsLtChars x y = false → jsLtChars y x = false → x = y := by
  intro x
  induction x with
  | nil =>
    intro y h1 h2
    cases y with
    | nil => rfl
    | cons b bs => simp [jsLtChars] at h1
  | cons a as ih =>
    intro y h1 h2
    cases y with
    | nil => simp [jsLtChars] at h2
    | cons b bs =>
      by_cases hc1 : a.toNat < b.toNat
      · simp [jsLtChars, hc1] at h1
      · by_cases hc2 : b.toNat < a.toNat
        · simp [jsLtChars, hc1, hc2] at h2
        · have hab : a = b := char_toNat_inj (by omega)
          have hr1 : jsLtChars as bs = false := by
            simpa [jsLtChars, hc1, hc2] using h1
          have hr2 : jsLtChars bs as = false := by
            simpa [jsLtChars, hc1, hc2] using h2
          rw [hab, ih hr1 hr2]

theorem jsStringLt_asymm {x y : String} (h : jsStringLt x y = true) :
    jsStringLt y x = false :=
  jsLtChars_asymm h

theorem jsStringLt_conn {x y : String} (h1 : jsStringLt x y = false)
    (h2 : jsStringLt y x = false) : x = y := by
  have hd : x.data = y.data := jsLtChars_conn h1 h2
  have hx : String.mk x.data = String.mk y.data := by rw [hd]
  exact hx

/-! ## secureCompare lemmas -/

theorem nat_or_eq_zero {a b : Nat} : a ||| b = 0 ↔ a = 0 ∧ b = 0 := by
  constructor
  · intro h
    constructor <;> apply Nat.eq_of_testBit_eq <;> intro k
    · have hc := congrArg (fun x => Nat.testBit x k) h
      simp [Nat.testBit_or] at hc
      simp [hc.1]
    · have hc := congrArg (fun x => Nat.testBit x k) h
      simp [Nat.testBit_or] at hc
      simp [hc.2]
  · rintro ⟨rfl, rfl⟩
    rfl

theorem foldl_or_eq_zero (l : List Nat) :
    ∀ a, (l.foldl (fun r v => r ||| v) a = 0) ↔ (a = 0 ∧ ∀ x ∈ l, x = 0) := by
  induction l with
  | nil => simp
  | cons x xs ih =>
    intro a
    simp only [List.foldl_cons, ih (a ||| x), nat_or_eq_zero, List.mem_cons]
    constructor
    · rintro ⟨⟨ha, hx⟩, hrest⟩
      exact ⟨ha, fun y hy => by rcases hy with rfl | hy; exact hx; exact hrest y hy⟩
    · rintro ⟨ha, hall⟩
      exact ⟨⟨ha, hall x (Or.inl rfl)⟩, fun y hy => hall y (Or.inr hy)⟩

theorem zipWith_xor_self (a : List Nat) :
    ∀ x ∈ List.zipWith (fun x y => x ^^^ y) a a, x = 0 := by
  induction a with
  | nil => simp
  | cons v vs ih =>
    intro x hx
    simp only [List.zipWith_cons_cons, List.mem_cons] at hx
    rcases hx with rfl | hx
    · exact Nat.xor_self v
    · exact ih x hx

/-! ## Fingerprint lemmas -/

theorem hexDigitChar_upper : ∀ d, d < 16 → isUpperHexChar (hexDigitChar d).toUpper = true := by
  decide

theorem flatMap_hex_length (bs : List Nat) :
    (bs.flatMap hexByteChars).length = 2 * bs.length := by
  induction bs with
  | nil => simp
  | cons b bs ih =>
    simp [hexByteChars, ih]
    omega

theorem flatMap_hex_take : ∀ (bs : List Nat) (k : Nat), k ≤ bs.length →
    (bs.flatMap hexByteChars).take (2 * k) = ((bs.take k).flatMap hexByteChars) := by
  intro bs
  induction bs with
  | nil =>
    intro k hk
    simp at hk
    simp [hk]
  | cons b bs ih =>
    intro k hk
    cases k with
    | zero => simp
    | succ m =>
      have h2 : 2 * (m + 1) = 2 * m + 1 + 1 := by omega
      simp only [List.take_succ_cons, List.flatMap_cons, hexByteChars, h2,
        List.cons_append, List.nil_append, List.take_succ_cons]
      have hm : m ≤ bs.length := by
        simp at hk
        omega
      have := ih m hm
      simp only [hexByteChars] at this
      rw [this]

theorem mem_hexByteChars_upper {b : Nat} (hb : b < 256) {c : Char} (hc : c ∈ hexByteChars b) :
    isUpperHexChar c.toUpper = true := by
  simp only [hexByteChars, List.mem_cons, List.not_mem_nil, or_false] at hc
  rcases hc with rfl | rfl
  · exact hexDigitChar_upper (b / 16) (by omega)
  · exact hexDigitChar_upper (b % 16) (by omega)

/-! ## Key-management helper lemmas -/

theorem rndOK_constRnd : RndOK constRnd := by
  intro n
  refine ⟨by simp [constRnd], ?_⟩
  exact bytesOK_replicate (by omega)

theorem jsLtChars_irrefl : ∀ (x : List Char), jsLtChars x x = false := by
  intro x
  induction x with
  | nil => rfl
  | cons a as ih => simp [jsLtChars, ih]

theorem validKey_derivePasswordKey (pw : String) (salt : List Nat) (hsalt : BytesOK salt) :
    ValidKey (derivePasswordKey pw salt) := by
  unfold ValidKey derivePasswordKey encodeKeyBytes encodeSymKey
  rw [bytesOK_cons, bytesOK_cons, bytesOK_cons, bytesOK_append, bytesOK_append]
  refine ⟨by simp [specByte], by omega, by simp [hashByte], bytesOK_delim (bytesOK_utf8Bytes pw),
    bytesOK_delim hsalt, bytesOK_delim (leBytes_lt 8 PBKDF2_ITERATIONS)⟩

theorem importJwk_jwkBytes (d : Nat) (hd : d < 256 ^ 64) :
    importJwk (jwkBytes d) = Except.ok d := by
  unfold importJwk jwkBytes
  have hlen : (123 :: padTo 64 (leBytes 64 d)).length = 65 := by
    have := padTo_length (leBytes_length_le 64 d)
    simp [this]
  rw [hlen]
  simp only [List.headD_cons]
  rw [if_pos (by simp)]
  rw [List.drop_one, List.tail_cons]
  rw [fromLE_padTo_leBytes 64 64 d hd]

theorem importPublicKeyBytes_pubRaw (a : Nat) :
    ∃ v, importPublicKeyBytes (pubRaw a) = Except.ok v := by
  unfold importPublicKeyBytes pubRaw
  have hlen : (4 :: padTo 64 (leBytes 64 a)).length = 65 := by
    have := padTo_length (leBytes_length_le 64 a)
    simp [this]
  rw [hlen]
  simp only [List.headD_cons]
  rw [if_pos (by simp)]
  exact ⟨_, rfl⟩

theorem pbkdf2_password_inj {pw pw' : String} {salt salt' : List Nat}
    (h : encodeKeyBytes (derivePasswordKey pw salt) =
      encodeKeyBytes (derivePasswordKey pw' salt')) : pw = pw' := by
  unfold derivePasswordKey encodeKeyBytes encodeSymKey at h
  simp only [specByte, hashByte, List.cons.injEq, true_and] at h
  have h2 := delim_append_inj h
  exact utf8Bytes_inj h2.1

theorem except_bind_ok {e a b : Type} (x : a) (f : a → Except e b) :
    (Except.ok x : Except e a) >>= f = f x := rfl

theorem except_bind_err {e a b : Type} (er : e) (f : a → Except e b) :
    (Except.error er : Except e a) >>= f = Except.error er := rfl

/-! ## Claim theorems -/

/-- C9: for every pair of byte arrays, secureCompare returns true if and only
if the arrays are equal (equal length and equal bytes at every index); the
result is computed by XOR-accumulating over the full length, with a differing
length as the only short-circuit, as the definition of `secureCompare` shows. -/
theorem c9_secureCompare_iff_eq (a b : List Nat) : secureCompare a b = true ↔ a = b := by
  unfold secureCompare
  by_cases h : a.length = b.length
  · rw [if_neg (by omega)]
    rw [decide_eq_true_eq]
    rw [foldl_or_eq_zero]
    constructor
    · rintro ⟨-, hz⟩
      apply List.ext_getElem h
      intro i h1 h2
      have hzl : i < (List.zipWith (fun x y => x ^^^ y) a b).length := by
        rw [List.length_zipWith]
        omega
      have hx : (List.zipWith (fun x y => x ^^^ y) a b)[i] = a[i] ^^^ b[i] :=
        List.getElem_zipWith
      have hmem : a[i] ^^^ b[i] ∈ List.zipWith (fun x y => x ^^^ y) a b := by
        rw [← hx]
        exact List.getElem_mem hzl
      exact Nat.xor_eq_zero.mp (hz _ hmem)
    · rintro rfl
      exact ⟨rfl, zipWith_xor_self a⟩
  · rw [if_pos (by omega)]
    constructor
    · intro hf
      exact absurd hf (by simp)
    · intro he
      exact absurd (congrArg List.length he) h

/-- C2, counterexample: the claim fails at equal fingerprint strings. With both
fingerprints "X", party A's sendKey is the key derived under the second label
while party B's receiveKey is the key derived under the first label, so they
differ. -/
theorem c2_equal_fingerprint_counterexample :
    (deriveBidirectionalKeys (generateIdentityKeyPair 2) 3 "X" "X").sendKey ≠
      (deriveBidirectionalKeys (generateIdentityKeyPair 3) 2 "X" "X").receiveKey := by
  decide

/-- C2, amended: deriveBidirectionalKeys is symmetric (A's sendKey is B's
receiveKey and A's receiveKey is B's sendKey) for every pair of parties with
mutually imported public keys and every pair of DISTINCT fingerprint strings;
for equal fingerprint strings nothing crashes and the two parties compute
identical (not mirrored) key assignments. -/
theorem c2_bidirectional_keys_symmetric_amended (a b : Nat) (fpA fpB : String)
    (hne : fpA ≠ fpB) :
    ((deriveBidirectionalKeys (generateIdentityKeyPair a)
        (generateIdentityKeyPair b).publicKey fpA fpB).sendKey =
      (deriveBidirectionalKeys (generateIdentityKeyPair b)
        (generateIdentityKeyPair a).publicKey fpB fpA).receiveKey ∧
      (deriveBidirectionalKeys (generateIdentityKeyPair a)
        (generateIdentityKeyPair b).publicKey fpA fpB).receiveKey =
      (deriveBidirectionalKeys (generateIdentityKeyPair b)
        (generateIdentityKeyPair a).publicKey fpB fpA).sendKey) ∧
    (∀ fp : String,
      deriveBidirectionalKeys (generateIdentityKeyPair a)
        (generateIdentityKeyPair b).publicKey fp fp =
      deriveBidirectionalKeys (generateIdentityKeyPair b)
        (generateIdentityKeyPair a).publicKey fp fp) := by
  have hsec : deriveSharedSecret (generateIdentityKeyPair b).privateKey
      (generateIdentityKeyPair a).publicKey =
    deriveSharedSecret (generateIdentityKeyPair a).privateKey
      (generateIdentityKeyPair b).publicKey := by
    simp [deriveSharedSecret, generateIdentityKeyPair, Nat.mul_comm]
  constructor
  · cases hlt : jsStringLt fpA fpB with
    | true =>
      have hlt2 : jsStringLt fpB fpA = false := jsStringLt_asymm hlt
      constructor <;> simp [deriveBidirectionalKeys, hlt, hlt2, hsec]
    | false =>
      cases hlt2 : jsStringLt fpB fpA with
      | true =>
        constructor <;> simp [deriveBidirectionalKeys, hlt, hlt2, hsec]
      | false =>
        exact absurd (jsStringLt_conn hlt hlt2) hne
  · intro fp
    have hirr : jsStringLt fp fp = false := jsLtChars_irrefl fp.data
    simp [deriveBidirectionalKeys, hirr, hsec]

/-- C3, counterexample: the sendKey of the lexicographically lower party is not
the key derived under the HKDF context label "session-key-1"; the code derives
its keys under different labels. -/
theorem c3_label_counterexample :
    (deriveBidirectionalKeys (generateIdentityKeyPair 2) 3 "A" "B").sendKey ≠
      deriveSessionKey (deriveSharedSecret 2 3) none (utf8Bytes "session-key-1") := by
  decide

/-- C3, amended: deriveBidirectionalKeys computes the shared secret once and
derives both directional keys from it under the two fixed, distinct HKDF
context labels "chit-chat-session-key-1" and "chit-chat-session-key-2"; the
party whose fingerprint is lexicographically lower takes the key derived under
label 1 as sendKey and the key under label 2 as receiveKey, and the other
party takes the opposite assignment. -/
theorem c3_bidirectional_key_derivation_amended (a b : Nat) (fpA fpB : String)
    (hlow : jsStringLt fpA fpB = true) :
    deriveBidirectionalKeys (generateIdentityKeyPair a)
        (generateIdentityKeyPair b).publicKey fpA fpB =
      SessionKeys.mk
        (deriveSessionKey (deriveSharedSecret a b) none (utf8Bytes "chit-chat-session-key-1"))
        (deriveSessionKey (deriveSharedSecret a b) none
          (utf8Bytes "chit-chat-session-key-2")) ∧
    deriveBidirectionalKeys (generateIdentityKeyPair b)
        (generateIdentityKeyPair a).publicKey fpB fpA =
      SessionKeys.mk
        (deriveSessionKey (deriveSharedSecret a b) none (utf8Bytes "chit-chat-session-key-2"))
        (deriveSessionKey (deriveSharedSecret a b) none
          (utf8Bytes "chit-chat-session-key-1")) := by
  have hlt2 : jsStringLt fpB fpA = false := jsStringLt_asymm hlow
  have hsec : deriveSharedSecret (generateIdentityKeyPair b).privateKey
      (generateIdentityKeyPair a).publicKey = deriveSharedSecret a b := by
    simp [deriveSharedSecret, generateIdentityKeyPair, Nat.mul_comm]
  have hsec2 : deriveSharedSecret (generateIdentityKeyPair a).privateKey
      (generateIdentityKeyPair b).publicKey = deriveSharedSecret a b := by
    simp [deriveSharedSecret, generateIdentityKeyPair]
  constructor
  · simp [deriveBidirectionalKeys, hlow, hsec2]
  · simp [deriveBidirectionalKeys, hlt2, hsec]

/-- C4: for every valid session key, every plaintext string and every
associated-data value (including absent), the decrypt-encrypt round trip
returns the original plaintext and the original encryption-time timestamp;
encryptMessage requests a fresh IV_LENGTH-byte nonce, prepends it to the
cipher output, and decryptMessage splits the first IV_LENGTH bytes back off as
the nonce. -/
theorem c4_encrypt_decrypt_roundtrip (k : CryptoKeyM) (m : String) (aad : Option (List Nat))
    (rnd : Nat → List Nat) (t : Nat) (hr : RndOK rnd) (hk : ValidKey k)
    (haad : BytesOK (aadOf aad)) :
    decryptMessage k (encryptMessage k m aad rnd t) aad =
      Except.ok (DecryptedMessage.mk m t) ∧
    (encryptMessage k m aad rnd t).timestamp = t ∧
    base64ToArrayBuffer (encryptMessage k m aad rnd t).ciphertext =
      some (rnd IV_LENGTH ++ subtleEncrypt k (rnd IV_LENGTH) (aadOf aad) 128 (utf8Bytes m)) ∧
    (rnd IV_LENGTH).length = 12 ∧
    (base64ToArrayBuffer (encryptMessage k m aad rnd t).ciphertext).map
      (fun c => c.take IV_LENGTH) = some (rnd IV_LENGTH) := by
  obtain ⟨hivlen, hivok⟩ := hr IV_LENGTH
  have hcombined : BytesOK (rnd IV_LENGTH ++
      subtleEncrypt k (rnd IV_LENGTH) (aadOf aad) 128 (utf8Bytes m)) :=
    bytesOK_append.mpr ⟨hivok, bytesOK_encCore hk hivok haad (bytesOK_utf8Bytes m)⟩
  have h1 : base64ToArrayBuffer (encryptMessage k m aad rnd t).ciphertext =
      some (rnd IV_LENGTH ++ subtleEncrypt k (rnd IV_LENGTH) (aadOf aad) 128 (utf8Bytes m)) :=
    base64_roundtrip _ hcombined
  refine ⟨decryptMessage_encryptMessage hr hk haad, rfl, h1, hivlen, ?_⟩
  rw [h1]
  simp [take_append_of_length hivlen]

/-- C5: decrypting a message produced by encryptMessage with any associated
data whose byte string differs from the one used at encryption fails with
AuthenticationFailure, and decrypting with the correct key and associated data
but any single bit of the transported ciphertext flipped fails with the same
AuthenticationFailure value, so the failure is reported identically regardless
of the cause. -/
theorem c5_auth_failure_on_aad_mismatch_or_bitflip (k : CryptoKeyM) (m : String)
    (aad : Option (List Nat)) (rnd : Nat → List Nat) (t : Nat) (hr : RndOK rnd)
    (hk : ValidKey k) (haad : BytesOK (aadOf aad)) :
    (∀ aad' : Option (List Nat), aadOf aad' ≠ aadOf aad →
      decryptMessage k (encryptMessage k m aad rnd t) aad' =
        Except.error CryptoError.authenticationFailure) ∧
    (∀ j b t' : Nat, j < (rnd IV_LENGTH ++
        subtleEncrypt k (rnd IV_LENGTH) (aadOf aad) 128 (utf8Bytes m)).length → b < 8 →
      decryptMessage k (EncryptedMessage.mk (arrayBufferToBase64 (flipBit
          (rnd IV_LENGTH ++ subtleEncrypt k (rnd IV_LENGTH) (aadOf aad) 128 (utf8Bytes m))
          j b)) t') aad =
        Except.error CryptoError.authenticationFailure) := by
  constructor
  · intro aad' hne
    exact decryptMessage_wrong_aad hr hk haad hne
  · intro j b t' hj hb
    exact decryptMessage_flip hr hk haad hj hb

/-- C7: for every raw public-key byte string of at least 8 bytes, the generated
fingerprint consists of four 4-character uppercase-hex blocks separated by
hyphens, and it is derived from the first 8 bytes only: taking the first 8
bytes of the input yields the identical fingerprint, so identical public key
bytes always yield identical fingerprints. -/
theorem c7_fingerprint_format (bs : List Nat) (hlen : 8 ≤ bs.length) (hok : BytesOK bs) :
    (∃ g1 g2 g3 g4 : List Char,
      generateFingerprint bs = String.mk (g1 ++ '-' :: (g2 ++ '-' :: (g3 ++ '-' :: g4))) ∧
      g1.length = 4 ∧ g2.length = 4 ∧ g3.length = 4 ∧ g4.length = 4 ∧
      (∀ c : Char, (c ∈ g1 ∨ c ∈ g2 ∨ c ∈ g3 ∨ c ∈ g4) → isUpperHexChar c = true)) ∧
    generateFingerprint bs = generateFingerprint (bs.take 8) := by
  have hdata : (arrayBufferToHex bs).data = bs.flatMap hexByteChars := rfl
  have hflatlen : (bs.flatMap hexByteChars).length = 2 * bs.length := flatMap_hex_length bs
  have hshlen : (((arrayBufferToHex bs).data.take 16).map Char.toUpper).length = 16 := by
    rw [List.length_map, List.length_take, hdata, hflatlen]
    omega
  have hmem : ∀ c ∈ ((arrayBufferToHex bs).data.take 16).map Char.toUpper,
      isUpperHexChar c = true := by
    intro c hc
    obtain ⟨c', hc', rfl⟩ := List.mem_map.mp hc
    have hc2 : c' ∈ (arrayBufferToHex bs).data := List.mem_of_mem_take hc'
    rw [hdata] at hc2
    obtain ⟨b, hb, hcb⟩ := List.mem_flatMap.mp hc2
    exact mem_hexByteChars_upper (hok b hb) hcb
  constructor
  · refine ⟨(((arrayBufferToHex bs).data.take 16).map Char.toUpper).take 4,
      ((((arrayBufferToHex bs).data.take 16).map Char.toUpper).drop 4).take 4,
      ((((arrayBufferToHex bs).data.take 16).map Char.toUpper).drop 8).take 4,
      ((((arrayBufferToHex bs).data.take 16).map Char.toUpper).drop 12).take 4,
      rfl, ?_, ?_, ?_, ?_, ?_⟩
    · rw [List.length_take, hshlen]
      omega
    · rw [List.length_take, List.length_drop, hshlen]
      omega
    · rw [List.length_take, List.length_drop, hshlen]
      omega
    · rw [List.length_take, List.length_drop, hshlen]
      omega
    · intro c hc
      have hc2 : c ∈ ((arrayBufferToHex bs).data.take 16).map Char.toUpper := by
        rcases hc with hc | hc | hc | hc
        · exact List.mem_of_mem_take hc
        · exact List.mem_of_mem_drop (List.mem_of_mem_take hc)
        · exact List.mem_of_mem_drop (List.mem_of_mem_take hc)
        · exact List.mem_of_mem_drop (List.mem_of_mem_take hc)
      exact hmem c hc2
  · have h16 : (arrayBufferToHex bs).data.take 16 =
        (arrayBufferToHex (bs.take 8)).data.take 16 := by
      show (bs.flatMap hexByteChars).take 16 = ((bs.take 8).flatMap hexByteChars).take 16
      have he : (16 : Nat) = 2 * 8 := by norm_num
      rw [he, flatMap_hex_take bs 8 hlen]
      have hlen8 : ((bs.take 8).flatMap hexByteChars).length = 2 * 8 := by
        rw [flatMap_hex_length, List.length_take]
        omega
      rw [List.take_of_length_le (le_of_eq hlen8)]
    unfold generateFingerprint
    rw [h16]

/-- C8: derivePasswordKey is a deterministic PBKDF2 over SHA-256 with the
fixed iteration constant 310000 (at least 300000) producing an AES-GCM-256
key, and createKeyBackup requests a fresh random salt of SALT_LENGTH = 32
bytes and a fresh 12-byte nonce for each backup. -/
theorem c8_backup_kdf_parameters :
    (∀ (pw : String) (salt : List Nat), derivePasswordKey pw salt =
      CryptoKeyM.mk KeySpec.aesGcm256
        (SymKey.pbkdf2 (utf8Bytes pw) HashAlg.sha256 salt 310000)) ∧
    PBKDF2_ITERATIONS = 310000 ∧ 300000 ≤ PBKDF2_ITERATIONS ∧ SALT_LENGTH = 32 ∧
    (∀ (kp : KeyPair) (pw : String) (rnd : Nat → List Nat), RndOK rnd →
      (base64ToArrayBuffer (createKeyBackup kp pw rnd).salt).map List.length =
        some SALT_LENGTH ∧
      (base64ToArrayBuffer (createKeyBackup kp pw rnd).iv).map List.length = some 12) := by
  refine ⟨fun pw salt => rfl, rfl, by norm_num [PBKDF2_ITERATIONS], rfl, ?_⟩
  intro kp pw rnd hr
  have hs : base64ToArrayBuffer (createKeyBackup kp pw rnd).salt = some (rnd SALT_LENGTH) :=
    base64_roundtrip _ (hr SALT_LENGTH).2
  have hi : base64ToArrayBuffer (createKeyBackup kp pw rnd).iv = some (rnd 12) :=
    base64_roundtrip _ (hr 12).2
  rw [hs, hi]
  simp [(hr SALT_LENGTH).1, (hr 12).1]

/-- C10: importKeyPair and restoreKeyFromBackup copy the fingerprint field of
the input record verbatim into the returned key pair and never recompute it
from the public key bytes, so a record whose fingerprint does not match its
public key yields a key pair carrying that mismatched fingerprint. -/
theorem c10_fingerprint_copied_verbatim :
    (∀ (exported : ExportedKeyPair) (kp : KeyPair),
      importKeyPair exported = Except.ok kp → kp.fingerprint = exported.fingerprint) ∧
    (∀ (backup : EncryptedKeyBackup) (pw : String) (kp : KeyPair),
      restoreKeyFromBackup backup pw = Except.ok kp → kp.fingerprint = backup.fingerprint) := by
  constructor
  · intro e kp h
    unfold importKeyPair at h
    cases h1 : base64ToArrayBuffer e.publicKey with
    | none =>
      simp only [h1, except_bind_err] at h
      exact Except.noConfusion h
    | some raw =>
      simp only [h1, except_bind_ok] at h
      cases h2 : importPublicKeyBytes raw with
      | error err =>
        simp only [h2, except_bind_err] at h
        exact Except.noConfusion h
      | ok pub =>
        simp only [h2, except_bind_ok] at h
        cases h3 : importJwk e.privateKey with
        | error err =>
          simp only [h3, except_bind_err] at h
          exact Except.noConfusion h
        | ok priv =>
          simp only [h3, except_bind_ok] at h
          injection h with h4
          rw [← h4]
  · intro bk pw kp h
    unfold restoreKeyFromBackup at h
    cases h1 : base64ToArrayBuffer bk.salt with
    | none =>
      simp only [h1, except_bind_err] at h
      exact Except.noConfusion h
    | some salt =>
      simp only [h1, except_bind_ok] at h
      cases h2 : base64ToArrayBuffer bk.iv with
      | none =>
        simp only [h2, except_bind_err] at h
        exact Except.noConfusion h
      | some iv =>
        simp only [h2, except_bind_ok] at h
        cases h3 : base64ToArrayBuffer bk.encryptedPrivateKey with
        | none =>
          simp only [h3, except_bind_err] at h
          exact Except.noConfusion h
        | some ct =>
          simp only [h3, except_bind_ok] at h
          cases h4 : subtleDecrypt (derivePasswordKey pw salt) iv [] 128 ct with
          | none =>
            simp only [h4, except_bind_err] at h
            exact Except.noConfusion h
          | some dd =>
            simp only [h4, except_bind_ok] at h
            cases h5 : importJwk dd with
            | error err =>
              simp only [h5, except_bind_err] at h
              exact Except.noConfusion h
            | ok priv =>
              simp only [h5, except_bind_ok] at h
              cases h6 : base64ToArrayBuffer bk.publicKey with
              | none =>
                simp only [h6, except_bind_err] at h
                exact Except.noConfusion h
              | some raw =>
                simp only [h6, except_bind_ok] at h
                cases h7 : importPublicKeyBytes raw with
                | error err =>
                  simp only [h7, except_bind_err] at h
                  exact Except.noConfusion h
                | ok pub =>
                  simp only [h7, except_bind_ok] at h
                  injection h with h8
                  rw [← h8]

/-- C6: restoring a password-protected backup with the correct password
returns a key pair whose fingerprint equals the original pair's fingerprint,
and restoring the same backup with any wrong password fails with
AuthenticationFailure and never returns key material. -/
theorem c6_backup_restore_roundtrip_and_wrong_password (kp : KeyPair) (pw pw' : String)
    (rnd : Nat → List Nat) (hr : RndOK rnd) (hpriv : kp.privateKey < 256 ^ 64)
    (hne : pw' ≠ pw) :
    (restoreKeyFromBackup (createKeyBackup kp pw rnd) pw).map (fun p => p.fingerprint) =
      Except.ok kp.fingerprint ∧
    restoreKeyFromBackup (createKeyBackup kp pw rnd) pw' =
      Except.error CryptoError.authenticationFailure := by
  have hsOK := (hr SALT_LENGTH).2
  have hiOK := (hr 12).2
  have hK : ValidKey (derivePasswordKey pw (rnd SALT_LENGTH)) :=
    validKey_derivePasswordKey pw _ hsOK
  have haadN : BytesOK ([] : List Nat) := by
    intro x hx
    simp at hx
  have hd1 : base64ToArrayBuffer (createKeyBackup kp pw rnd).salt = some (rnd SALT_LENGTH) :=
    base64_roundtrip _ hsOK
  have hd2 : base64ToArrayBuffer (createKeyBackup kp pw rnd).iv = some (rnd 12) :=
    base64_roundtrip _ hiOK
  have hd3 : base64ToArrayBuffer (createKeyBackup kp pw rnd).encryptedPrivateKey =
      some (subtleEncrypt (derivePasswordKey pw (rnd SALT_LENGTH)) (rnd 12) [] 128
        (jwkBytes kp.privateKey)) :=
    base64_roundtrip _ (bytesOK_encCore hK hiOK haadN (bytesOK_jwkBytes _))
  have hd4 : base64ToArrayBuffer (createKeyBackup kp pw rnd).publicKey =
      some (pubRaw kp.publicKey) :=
    base64_roundtrip _ (bytesOK_pubRaw _)
  have hjwk := importJwk_jwkBytes kp.privateKey hpriv
  obtain ⟨pub, hpub⟩ := importPublicKeyBytes_pubRaw kp.publicKey
  constructor
  · have hdec : subtleDecrypt (derivePasswordKey pw (rnd SALT_LENGTH)) (rnd 12) [] 128
        (subtleEncrypt (derivePasswordKey pw (rnd SALT_LENGTH)) (rnd 12) [] 128
          (jwkBytes kp.privateKey)) = some (jwkBytes kp.privateKey) :=
      subtleDecrypt_enc _ _ _ _ _
    unfold restoreKeyFromBackup
    simp only [hd1, except_bind_ok, hd2, hd3, hdec, hjwk, hd4, hpub]
    rfl
  · have hdec2 : subtleDecrypt (derivePasswordKey pw' (rnd SALT_LENGTH)) (rnd 12) [] 128
        (subtleEncrypt (derivePasswordKey pw (rnd SALT_LENGTH)) (rnd 12) [] 128
          (jwkBytes kp.privateKey)) = none := by
      cases hv : subtleDecrypt (derivePasswordKey pw' (rnd SALT_LENGTH)) (rnd 12) [] 128
          (subtleEncrypt (derivePasswordKey pw (rnd SALT_LENGTH)) (rnd 12) [] 128
            (jwkBytes kp.privateKey)) with
      | none => rfl
      | some dd =>
        exfalso
        have hmm := subtleDecrypt_mismatch hv
        exact hne (pbkdf2_password_inj hmm.2.1)
    unfold restoreKeyFromBackup
    simp only [hd1, except_bind_ok, hd2, hd3, hdec2]
    rfl

set_option maxRecDepth 100000 in
set_option maxHeartbeats 4000000 in
/-- C1: code-bug demonstration. The facade binds the AAD to its own Date.now()
read but transports encryptMessage's separate Date.now() timestamp, and
decryptSessionMessage recomputes the AAD from the transported timestamp.
When the two clock reads differ (facade reads 1000, encryptMessage reads
1001), Bobs decryption of Alices message fails with AuthenticationFailure
even though both sessions were established correctly from each other's public
key and fingerprint; when the two reads coincide, the round trip returns the
original plaintext, confirming the timestamp skew as the only failure cause. -/
theorem c1_facade_roundtrip_clock_skew_bug :
    ((establishSecureSession (generateIdentityKeyPair 2)
        (arrayBufferToBase64 (pubRaw 3)) (generateIdentityKeyPair 3).fingerprint 500).bind
      (fun sA =>
        (establishSecureSession (generateIdentityKeyPair 3)
            (arrayBufferToBase64 (pubRaw 2)) (generateIdentityKeyPair 2).fingerprint 500).bind
          (fun sB => decryptSessionMessage sB
            (encryptSessionMessage sA "alice" "bob" "Secret session message!" 1000 constRnd
              1001)))) = Except.error CryptoError.authenticationFailure ∧
    ((establishSecureSession (generateIdentityKeyPair 2)
        (arrayBufferToBase64 (pubRaw 3)) (generateIdentityKeyPair 3).fingerprint 500).bind
      (fun sA =>
        (establishSecureSession (generateIdentityKeyPair 3)
            (arrayBufferToBase64 (pubRaw 2)) (generateIdentityKeyPair 2).fingerprint 500).bind
          (fun sB => decryptSessionMessage sB
            (encryptSessionMessage sA "alice" "bob" "Secret session message!" 1000 constRnd
              1000)))) =
      Except.ok (DecryptedMessage.mk "Secret session message!" 1000) := by
  constructor
  · decide
  · decide

/-! ## Witnesses -/

/-- Witness for C2 at scalars 2 and 3 with fingerprints "A" and "B". -/
theorem c2_bidirectional_keys_symmetric_amended_witness :
    ((deriveBidirectionalKeys (generateIdentityKeyPair 2)
        (generateIdentityKeyPair 3).publicKey "A" "B").sendKey =
      (deriveBidirectionalKeys (generateIdentityKeyPair 3)
        (generateIdentityKeyPair 2).publicKey "B" "A").receiveKey ∧
      (deriveBidirectionalKeys (generateIdentityKeyPair 2)
        (generateIdentityKeyPair 3).publicKey "A" "B").receiveKey =
      (deriveBidirectionalKeys (generateIdentityKeyPair 3)
        (generateIdentityKeyPair 2).publicKey "B" "A").sendKey) ∧
    (∀ fp : String,
      deriveBidirectionalKeys (generateIdentityKeyPair 2)
        (generateIdentityKeyPair 3).publicKey fp fp =
      deriveBidirectionalKeys (generateIdentityKeyPair 3)
        (generateIdentityKeyPair 2).publicKey fp fp) :=
  c2_bidirectional_keys_symmetric_amended 2 3 "A" "B" (by decide)

/-- Witness for C3 at scalars 2 and 3 with fingerprints "A" lower than "B". -/
theorem c3_bidirectional_key_derivation_amended_witness :
    deriveBidirectionalKeys (generateIdentityKeyPair 2)
        (generateIdentityKeyPair 3).publicKey "A" "B" =
      SessionKeys.mk
        (deriveSessionKey (deriveSharedSecret 2 3) none (utf8Bytes "chit-chat-session-key-1"))
        (deriveSessionKey (deriveSharedSecret 2 3) none
          (utf8Bytes "chit-chat-session-key-2")) ∧
    deriveBidirectionalKeys (generateIdentityKeyPair 3)
        (generateIdentityKeyPair 2).publicKey "B" "A" =
      SessionKeys.mk
        (deriveSessionKey (deriveSharedSecret 2 3) none (utf8Bytes "chit-chat-session-key-2"))
        (deriveSessionKey (deriveSharedSecret 2 3) none
          (utf8Bytes "chit-chat-session-key-1")) :=
  c3_bidirectional_key_derivation_amended 2 3 "A" "B" (by decide)

set_option maxRecDepth 100000 in
set_option maxHeartbeats 4000000 in
/-- Witness for C4 with a concrete key, entropy oracle, absent associated data
and a plaintext containing a 4-byte code point. -/
theorem c4_encrypt_decrypt_roundtrip_witness :
    decryptMessage sampleKey (encryptMessage sampleKey "a😀" none constRnd 42) none =
      Except.ok (DecryptedMessage.mk "a😀" 42) ∧
    (encryptMessage sampleKey "a😀" none constRnd 42).timestamp = 42 ∧
    base64ToArrayBuffer (encryptMessage sampleKey "a😀" none constRnd 42).ciphertext =
      some (constRnd IV_LENGTH ++
        subtleEncrypt sampleKey (constRnd IV_LENGTH) (aadOf none) 128 (utf8Bytes "a😀")) ∧
    (constRnd IV_LENGTH).length = 12 ∧
    (base64ToArrayBuffer (encryptMessage sampleKey "a😀" none constRnd 42).ciphertext).map
      (fun c => c.take IV_LENGTH) = some (constRnd IV_LENGTH) :=
  c4_encrypt_decrypt_roundtrip sampleKey "a😀" none constRnd 42 rndOK_constRnd (by decide)
    (by decide)

set_option maxRecDepth 100000 in
set_option maxHeartbeats 4000000 in
/-- Witness for C5 with a concrete key, plaintext and associated data. -/
theorem c5_auth_failure_on_aad_mismatch_or_bitflip_witness :
    (∀ aad' : Option (List Nat), aadOf aad' ≠ aadOf (some [5]) →
      decryptMessage sampleKey (encryptMessage sampleKey "hi" (some [5]) constRnd 42) aad' =
        Except.error CryptoError.authenticationFailure) ∧
    (∀ j b t' : Nat, j < (constRnd IV_LENGTH ++
        subtleEncrypt sampleKey (constRnd IV_LENGTH) (aadOf (some [5])) 128
          (utf8Bytes "hi")).length → b < 8 →
      decryptMessage sampleKey (EncryptedMessage.mk (arrayBufferToBase64 (flipBit
          (constRnd IV_LENGTH ++ subtleEncrypt sampleKey (constRnd IV_LENGTH)
            (aadOf (some [5])) 128 (utf8Bytes "hi")) j b)) t') (some [5]) =
        Except.error CryptoError.authenticationFailure) :=
  c5_auth_failure_on_aad_mismatch_or_bitflip sampleKey "hi" (some [5]) constRnd 42
    rndOK_constRnd (by decide) (by decide)

set_option maxRecDepth 100000 in
set_option maxHeartbeats 4000000 in
/-- Witness for C6 at the identity with scalar 5, password "hunter2" and wrong
password "hunter3". -/
theorem c6_backup_restore_roundtrip_and_wrong_password_witness :
    (restoreKeyFromBackup (createKeyBackup (generateIdentityKeyPair 5) "hunter2" constRnd)
        "hunter2").map (fun p => p.fingerprint) =
      Except.ok (generateIdentityKeyPair 5).fingerprint ∧
    restoreKeyFromBackup (createKeyBackup (generateIdentityKeyPair 5) "hunter2" constRnd)
        "hunter3" = Except.error CryptoError.authenticationFailure :=
  c6_backup_restore_roundtrip_and_wrong_password (generateIdentityKeyPair 5) "hunter2"
    "hunter3" constRnd rndOK_constRnd (by decide) (by decide)

set_option maxRecDepth 100000 in
/-- Witness for C7 at a concrete 9-byte raw public key. -/
theorem c7_fingerprint_format_witness :
    (∃ g1 g2 g3 g4 : List Char,
      generateFingerprint [0, 17, 34, 51, 68, 85, 102, 119, 255] =
        String.mk (g1 ++ '-' :: (g2 ++ '-' :: (g3 ++ '-' :: g4))) ∧
      g1.length = 4 ∧ g2.length = 4 ∧ g3.length = 4 ∧ g4.length = 4 ∧
      (∀ c : Char, (c ∈ g1 ∨ c ∈ g2 ∨ c ∈ g3 ∨ c ∈ g4) → isUpperHexChar c = true)) ∧
    generateFingerprint [0, 17, 34, 51, 68, 85, 102, 119, 255] =
      generateFingerprint ([0, 17, 34, 51, 68, 85, 102, 119, 255].take 8) :=
  c7_fingerprint_format [0, 17, 34, 51, 68, 85, 102, 119, 255] (by decide) (by decide)

/-- Witness for C8 at a concrete key pair, password and entropy oracle. -/
theorem c8_backup_kdf_parameters_witness :
    (base64ToArrayBuffer (createKeyBackup (generateIdentityKeyPair 5) "p" constRnd).salt).map
      List.length = some SALT_LENGTH ∧
    (base64ToArrayBuffer (createKeyBackup (generateIdentityKeyPair 5) "p" constRnd).iv).map
      List.length = some 12 :=
  c8_backup_kdf_parameters.2.2.2.2 (generateIdentityKeyPair 5) "p" constRnd rndOK_constRnd

set_option maxRecDepth 100000 in
/-- Witness for C10: an exported record whose fingerprint "BOGUS" does not
match its public key still imports to a key pair carrying "BOGUS". -/
theorem c10_fingerprint_copied_verbatim_witness :
    (KeyPair.mk 9 9 (pubRaw 9) "BOGUS").fingerprint = "BOGUS" ∧
    importKeyPair (ExportedKeyPair.mk (arrayBufferToBase64 (pubRaw 9)) (jwkBytes 9)
      "BOGUS") = Except.ok (KeyPair.mk 9 9 (pubRaw 9) "BOGUS") ∧
    "BOGUS" ≠ generateFingerprint (pubRaw 9) :=
  ⟨c10_fingerprint_copied_verbatim.1 (ExportedKeyPair.mk (arrayBufferToBase64 (pubRaw 9))
      (jwkBytes 9) "BOGUS") (KeyPair.mk 9 9 (pubRaw 9) "BOGUS") (by decide),
    by decide, by decide⟩

end ChitChat
